import Mathlib

/-
Verification development for the api2ts service generator
(serviceGenerator.ts and util.ts of the repository).

The definitions below are a shallow embedding of the TypeScript source:
JavaScript strings become Lean `String`, JS `undefined`-able values become
`Option`, JS objects with a fixed shape become structures, and the dynamic
walk of `resolveRefObject` is embedded over a small JSON-like value type.
External npm libraries used by the source (lodash's `camelCase`,
`reserved-words`, `tiny-pinyin`) are not part of this repository; they are
modelled by small Lean functions marked as such in their doc comments.
-/

namespace Api2Ts

/-! ## JavaScript string primitives -/

/-- Word character of the JS regex class `\w` : `[A-Za-z0-9_]`. -/
def isWordChar (c : Char) : Bool :=
  (('a' ≤ c && c ≤ 'z') || ('A' ≤ c && c ≤ 'Z') || ('0' ≤ c && c ≤ '9') || c = '_')

/-- Whitespace for the JS regex class `\s` (common members). -/
def isJsSpace (c : Char) : Bool :=
  c = ' ' || c = '\t' || c = '\n' || c = '\r' || c = '\x0b' || c = '\x0c'

/-- Member of the CJK range `一-龥` used by the identifier-stripping
regex in `resolveTypeName`. -/
def isCJKStripRange (c : Char) : Bool :=
  0x4e00 ≤ c.toNat && c.toNat ≤ 0x9fa5

/-- Member of the wider range `㈠-﨩` used by the transliteration test
in `resolveTypeName`. -/
def isCJKTestRange (c : Char) : Bool :=
  0x3220 ≤ c.toNat && c.toNat ≤ 0xFA29

/-- JS `String.prototype.replace` with a plain-string pattern: replaces the
first occurrence only.  An empty pattern matches at position 0, as in JS. -/
def listReplaceFirst (pat repl : List Char) : List Char → List Char
  | [] => if pat.isEmpty then repl else []
  | c :: cs =>
    if pat.isPrefixOf (c :: cs) then repl ++ (c :: cs).drop pat.length
    else c :: listReplaceFirst pat repl cs

/-- String wrapper for `listReplaceFirst` (JS `s.replace(pat, repl)` with a
string pattern). -/
def jsReplaceFirst (pat repl s : String) : String :=
  ⟨listReplaceFirst pat.data repl.data s.data⟩

/-- Does `s` contain `pat` as a contiguous substring (JS `String.includes`)? -/
def listContainsSub (pat : List Char) : List Char → Bool
  | [] => pat.isEmpty
  | c :: cs => pat.isPrefixOf (c :: cs) || listContainsSub pat cs

/-- JS `s.includes(pat)`. -/
def jsIncludes (s pat : String) : Bool :=
  listContainsSub pat.data s.data

/-- Index of the first occurrence of `pat`, if any. -/
def firstOccFrom (pat : List Char) : List Char → Nat → Option Nat
  | [], i => if pat.isEmpty then some i else none
  | c :: cs, i =>
    if pat.isPrefixOf (c :: cs) then some i else firstOccFrom pat cs (i + 1)

/-- All occurrence indices of `pat`. -/
def occIdxsFrom (pat : List Char) : List Char → Nat → List Nat
  | [], i => if pat.isEmpty then [i] else []
  | c :: cs, i =>
    (if pat.isPrefixOf (c :: cs) then [i] else []) ++ occIdxsFrom pat cs (i + 1)

/-- Split the leftmost occurrence of `sep` out of `s`: `some (pre, post)`
with `s = pre ++ sep ++ post`, or `none` when `sep` does not occur.  (`sep`
is non-empty at every use site.) -/
def breakOnSub (sep : List Char) : List Char → Option (List Char × List Char)
  | [] => none
  | c :: cs =>
    if sep.isPrefixOf (c :: cs) then some ([], (c :: cs).drop sep.length)
    else match breakOnSub sep cs with
      | some p => some (c :: p.1, p.2)
      | none => none

/-- Fuelled splitting loop; each step consumes at least one character of the
remainder, so fuel `length + 1` (supplied by `jsSplit`) always suffices. -/
def listSplitOnGo (sep : List Char) : Nat → List Char → List (List Char)
  | 0, s => [s]
  | fuel + 1, s =>
    match breakOnSub sep s with
    | none => [s]
    | some p => p.1 :: listSplitOnGo sep fuel p.2

/-- JS `String.prototype.split` with a non-empty string separator
(`"".split(sep) = [""]`; separators at either end produce empty pieces). -/
def jsSplit (s sep : String) : List String :=
  (listSplitOnGo sep.data (s.data.length + 1) s.data).map (fun l => (⟨l⟩ : String))

/-- JS `Array.prototype.join` with a string separator. -/
def jsJoin (sep : String) : List String → String
  | [] => ""
  | [x] => x
  | x :: y :: rest => x ++ sep ++ jsJoin sep (y :: rest)

/-- JS global replace of one character (`s.replace(/c/g, r)`). -/
def jsReplaceAllChar (c : Char) (r : String) (s : String) : String :=
  ⟨(s.data.map (fun d => if d = c then r.data else [d])).flatten⟩

/-- ASCII upper-casing, standing in for JS `String.prototype.toUpperCase`
(all inputs reaching it in this development are ASCII). -/
def jsToUpper (s : String) : String :=
  ⟨s.data.map Char.toUpper⟩

/-- ASCII lower-casing (JS `toLowerCase`). -/
def jsToLower (s : String) : String :=
  ⟨s.data.map Char.toLower⟩

/-- JS `s.startsWith(pre)`. -/
def jsStartsWith (s pre : String) : Bool :=
  pre.data.isPrefixOf s.data

/-- JS `s.endsWith(suf)`. -/
def jsEndsWith (s suf : String) : Bool :=
  suf.data.isSuffixOf s.data

/-- JS `s.slice(n)` for nonnegative `n` (drop the first `n` characters). -/
def jsDropChars (s : String) (n : Nat) : String :=
  ⟨s.data.drop n⟩

/-- JS `s.slice(0, -n)` for positive `n` (drop the last `n` characters). -/
def jsDropRightChars (s : String) (n : Nat) : String :=
  ⟨s.data.take (s.data.length - n)⟩

/-- JS `s.trim()`: strip whitespace from both ends. -/
def jsTrim (s : String) : String :=
  ⟨((s.data.dropWhile isJsSpace).reverse.dropWhile isJsSpace).reverse⟩

/-! ## Models of external npm libraries -/

/-- Modelled from the spec: the external `reserved-words` package (not part of
this repository).  `ReservedDict.check w` tests membership of `w` in the ES5
reserved-word list (keywords plus future reserved words, non-strict). -/
def reservedWords : List String :=
  ["break", "case", "catch", "class", "const", "continue", "debugger",
   "default", "delete", "do", "else", "enum", "export", "extends", "finally",
   "for", "function", "if", "import", "in", "instanceof", "new", "return",
   "super", "switch", "this", "throw", "try", "typeof", "var", "void",
   "while", "with"]

/-- `ReservedDict.check` of the external `reserved-words` package. -/
def reservedCheck (w : String) : Bool :=
  reservedWords.contains w

/-- Modelled from the spec: the external `tiny-pinyin` transliteration library
(not part of this repository; the spec calls it a lossy best-effort Latin
phonetic form).  No theorem below exercises this branch, so it is modelled as
the identity. -/
def tinyPinyinConvert (s : String) : String := s

/-! ## getTypeLastName / resolveTypeName (serviceGenerator.ts lines 53-102) -/

/-- First match of the greedy regex `/\[\[.+\]\]/` in `s`: the span from the
first `[[` to the last `]]` (with at least one character between), as matched
by JS backtracking.  Returns the matched substring. -/
def childrenSpanOf (s : String) : Option String :=
  match firstOccFrom "[[".data s.data 0 with
  | none => none
  | some i =>
    let ends := (occIdxsFrom "]]".data s.data 0).filter (fun j => i + 3 ≤ j)
    match ends.getLast? with
    | none => none
    | some j => some ⟨(s.data.drop i).take (j + 2 - i)⟩

/-- Fuelled body of `getTypeLastName` (source lines 54-77).  Each recursive
call is on a strictly shorter string, so fuel `s.length + 1` (supplied by
`getTypeLastName`) always suffices; the fuel-0 branch is unreachable. -/
def getTypeLastNameF : Nat → String → String
  | 0, s => s
  | fuel + 1, typeName =>
    let tempTypeName := typeName
    match childrenSpanOf tempTypeName with
    | none =>
      let publicKeyToken :=
        jsReplaceFirst "null" "" ((jsSplit tempTypeName "PublicKeyToken=").getD 1 "")
      let firstTempTypeName := (jsSplit tempTypeName ",").headD tempTypeName
      let typeLastName0 :=
        (jsSplit ((jsSplit firstTempTypeName "/").getLastD "") ".").getLastD ""
      let typeLastName :=
        if jsEndsWith typeLastName0 "[]" then jsDropRightChars typeLastName0 2 ++ "Array"
        else typeLastName0
      let isCsharpSystemType := jsStartsWith firstTempTypeName "System."
      if publicKeyToken = "" || isCsharpSystemType then typeLastName
      else typeLastName ++ "_" ++ publicKeyToken
    | some children =>
      let currentTypeName := getTypeLastNameF fuel (jsReplaceFirst children "" tempTypeName)
      let childrenTypeNameLastName :=
        getTypeLastNameF fuel (jsDropRightChars (jsDropChars children 2) 2)
      currentTypeName ++ "_" ++ childrenTypeNameLastName

/-- `getTypeLastName` (source lines 54-77). -/
def getTypeLastName (typeName : String) : String :=
  getTypeLastNameF (typeName.length + 1) typeName

/-- The replacement `/[-_ ](\w)/g` of `resolveTypeName`: a separator followed
by a word character becomes that character upper-cased (global,
non-overlapping, left to right). -/
def upperSepChars : List Char → List Char
  | [] => []
  | [c] => [c]
  | c :: d :: rest =>
    if (c = '-' || c = '_' || c = ' ') && isWordChar d then
      d.toUpper :: upperSepChars rest
    else c :: upperSepChars (d :: rest)

/-- The strip `/[^\w^\s^一-龥]/gi` of `resolveTypeName`: keeps word
characters, whitespace, the literal `^`, and the CJK range, deleting
everything else. -/
def stripNonWord (s : String) : String :=
  ⟨s.data.filter (fun c => isWordChar c || isJsSpace c || c = '^' || isCJKStripRange c)⟩

/-- Regex test `/^\d+$/`: non-empty and all digits. -/
def isAllDigits (s : String) : Bool :=
  !s.data.isEmpty && s.data.all (fun c => '0' ≤ c && c ≤ '9')

/-- Regex test `/^\d$/`: a single digit. -/
def isSingleDigit (s : String) : Bool :=
  match s.data with
  | [c] => '0' ≤ c && c ≤ '9'
  | _ => false

/-- Regex test `/[㈠-﨩]/`. -/
def containsCJKTest (s : String) : Bool :=
  s.data.any isCJKTestRange

/-- The replacement `/ +/g → ''` of `resolveTypeName` (removes all spaces). -/
def removeSpaces (s : String) : String :=
  ⟨s.data.filter (fun c => c ≠ ' ')⟩

/-- `resolveTypeName` (source lines 80-102): sanitize a raw source string into
an identifier.  The `Log` warning on the digit branch is a side effect with no
data flow and is dropped. -/
def resolveTypeName (typeName : String) : String :=
  if reservedCheck typeName then "__openAPI__" ++ typeName
  else
    let typeLastName := getTypeLastName typeName
    let name := stripNonWord ⟨upperSepChars typeLastName.data⟩
    if name = "_" || isAllDigits name then "Pinyin_" ++ name
    else if !containsCJKTest name && !isSingleDigit name then name
    else tinyPinyinConvert (removeSpaces name)

/-- `getRefName` (source lines 104-110), specialised to a present `$ref`
string (its only use sites guard on a truthy `$ref`): the last `/`-segment of
the reference, sanitized. -/
def getRefName (ref : String) : String :=
  resolveTypeName ((jsSplit ref "/").getLastD "")

/-! ## The schema model

A `SchemaObject` of the source (openapi3-ts) is embedded as an inductive:
`raw` is a non-object JS value sitting in schema position (the source's
`typeof schemaObject !== 'object'` branch returns it verbatim), `node` is an
object with the fields the generator reads.  A missing (`undefined`/`null`)
schema is `Option.none` at use sites.  JS object fields that may be absent
are `Option`; the `required` field, which the source probes with `isBoolean`
/ `isArray`, gets its own sum type. -/

inductive EnumLit where
  | litStr (s : String)
  | litNum (n : Int)
  | litBool (b : Bool)
  | litNull
  deriving DecidableEq, Repr

inductive ReqVal where
  | absent
  | boolV (b : Bool)
  | arrV (l : List String)
  deriving DecidableEq, Repr

mutual
inductive SchemaObject where
  | raw (s : String)
  | node (ref : Option String) (type : Option String) (format : Option String)
      (enumVals : Option (List EnumLit))
      (oneOf : Option (List SchemaObject)) (anyOf : Option (List SchemaObject))
      (allOf : Option (List SchemaObject))
      (properties : Option (List (String × SchemaObject)))
      (required : ReqVal)
      (items : Option ItemsField)
      (schemaField : Option SchemaObject)
      (title : Option String) (descr : Option String)

inductive ItemsField where
  | one (s : SchemaObject)
  | many (l : List SchemaObject)
end

/-- The all-fields-absent schema object, a convenient base for literals. -/
def emptyNode : SchemaObject :=
  .node none none none none none none none none .absent none none none none

/-- JS truthiness of a value in schema position: objects are truthy, the
primitive strings modelled by `raw` are truthy unless empty. -/
def schemaTruthy : SchemaObject → Bool
  | .raw s => s ≠ ""
  | .node _ _ _ _ _ _ _ _ _ _ _ _ _ => true

def SchemaObject.refF : SchemaObject → Option String
  | .node r _ _ _ _ _ _ _ _ _ _ _ _ => r
  | _ => none

def SchemaObject.typeF : SchemaObject → Option String
  | .node _ t _ _ _ _ _ _ _ _ _ _ _ => t
  | _ => none

def SchemaObject.propsF : SchemaObject → Option (List (String × SchemaObject))
  | .node _ _ _ _ _ _ _ p _ _ _ _ _ => p
  | _ => none

def SchemaObject.requiredF : SchemaObject → ReqVal
  | .node _ _ _ _ _ _ _ _ q _ _ _ _ => q
  | _ => .absent

def SchemaObject.allOfF : SchemaObject → Option (List SchemaObject)
  | .node _ _ _ _ _ _ a _ _ _ _ _ _ => a
  | _ => none

def SchemaObject.enumF : SchemaObject → Option (List EnumLit)
  | .node _ _ _ e _ _ _ _ _ _ _ _ _ => e
  | _ => none

def SchemaObject.titleF : SchemaObject → Option String
  | .node _ _ _ _ _ _ _ _ _ _ _ t _ => t
  | _ => none

def SchemaObject.descrF : SchemaObject → Option String
  | .node _ _ _ _ _ _ _ _ _ _ _ _ d => d
  | _ => none

/-- Truthiness of a JS string field (`undefined` and `''` are falsy). -/
def optStrTruthy : Option String → Bool
  | some s => s ≠ ""
  | none => false

/-- `list.includes(x)` where `x` may be `undefined` (then always false). -/
def optInList (x : Option String) (l : List String) : Bool :=
  match x with
  | some s => l.contains s
  | none => false

/-- `[namespace, name].filter((s) => s).join('.')` of the `$ref` branch. -/
def joinDotFiltered (l : List String) : String :=
  jsJoin "." (l.filter (· ≠ ""))

/-- `Array.from(new Set(xs))`: de-duplicate keeping first occurrences. -/
def dedupKeepFirst (l : List String) : List String :=
  l.foldl (fun acc s => if acc.contains s then acc else acc ++ [s]) []

/-- The `numberEnum` list of `defaultGetType` (duplicates as in the source). -/
def numberEnum : List String :=
  ["integer", "long", "float", "double", "number", "int", "float", "double",
   "int32", "int64"]

def dateEnum : List String := ["Date", "date", "dateTime", "date-time", "datetime"]

def stringEnum : List String := ["string", "email", "password", "url", "byte", "binary"]

/-- `defaultGetType` applied to a non-string enum literal: a number echoes
back (coerced to its decimal string by the template), `null` hits the
leading `=== null` check and gives `any`, a boolean echoes back. -/
def enumLitType : EnumLit → String
  | .litStr s => "\"" ++ jsReplaceAllChar '"' "\"" s ++ "\""
  | .litNum n => toString n
  | .litBool b => if b then "true" else "false"
  | .litNull => "any"

/-- Does the property node carry a truthy `required` flag
(`'required' in node && node.required`)?  `boolV true` and any array are
truthy, `boolV false` is falsy, `absent` fails the `in` test.  On a `raw`
primitive JS would throw a `TypeError` (`in` on a non-object); that
pathological shape is modelled as `false` and no theorem relies on it. -/
def hasTruthyRequired : SchemaObject → Bool
  | .raw _ => false
  | .node _ _ _ _ _ _ _ _ q _ _ _ _ =>
    match q with
    | .absent => false
    | .boolV b => b
    | .arrV _ => true

/-- The required-marker computation of `defaultGetType`'s object branch
(source lines 213-225): three sequential `if`s each able to set
`required = true`. -/
def propRequiredFlag (schemaRequired : ReqVal) (propNode : SchemaObject) (key : String) : Bool :=
  let r1 := match schemaRequired with
    | .boolV b => b
    | _ => false
  let r2 := match schemaRequired with
    | .arrV l => l.contains key
    | _ => false
  let r3 := if schemaTruthy propNode then hasTruthyRequired propNode else false
  r1 || r2 || r3

/-! The type synthesizer is embedded in open-recursion form: the body
(one JS stack frame of `defaultGetType`) takes the recursive call as an
argument, and `defaultGetTypeF` ties the knot with fuel.  Every recursive
call of the body is on a strict subterm, so the recursion depth is bounded
by the schema size and the fuel `schemaSize + 1` supplied by
`defaultGetType` always suffices: the fuel-0 value is unreachable. -/

mutual
/-- Size of a schema term (each constructor counts at least 1, so every
recursive call of `defaultGetTypeBody` strictly decreases it). -/
def schemaSize : SchemaObject → Nat
  | .raw _ => 1
  | .node _ _ _ _ o a al props _ itms sch _ _ =>
    1 + optSchemaListSize o + optSchemaListSize a + optSchemaListSize al
      + optPropListSize props + optItemsSize itms + optSchemaSize sch

def optSchemaSize : Option SchemaObject → Nat
  | none => 1
  | some s => 1 + schemaSize s

def optSchemaListSize : Option (List SchemaObject) → Nat
  | none => 1
  | some l => 1 + schemaListSize l

def schemaListSize : List SchemaObject → Nat
  | [] => 1
  | s :: t => 1 + schemaSize s + schemaListSize t

def optPropListSize : Option (List (String × SchemaObject)) → Nat
  | none => 1
  | some l => 1 + propListSize l

def propListSize : List (String × SchemaObject) → Nat
  | [] => 1
  | (_, s) :: t => 1 + schemaSize s + propListSize t

def optItemsSize : Option ItemsField → Nat
  | none => 1
  | some (.one s) => 2 + schemaSize s
  | some (.many l) => 2 + schemaListSize l
end

/-- `subType.schema || subType` of the heterogeneous-items branch
(source line 178); a falsy `schema` field falls back to the member itself. -/
def subTypeEff (x : SchemaObject) : SchemaObject :=
  match x with
  | .node _ _ _ _ _ _ _ _ _ _ (some s') _ _ => if schemaTruthy s' then s' else x
  | _ => x

/-- The array branch of `defaultGetType` (source lines 170-184) applied to
the effective `items` value, parametrized by the recursive synthesizer
(`recur none` is `defaultGetType(undefined) = 'any'`). -/
def arrayExprOf (recur : Option SchemaObject → String → String)
    (itemsEff : Option ItemsField) (namespace_ : String) : String :=
  match itemsEff with
  | some (.many l) =>
    "[" ++ jsJoin "," (l.map (fun x => recur (some (subTypeEff x)) namespace_)) ++ "]"
  | some (.one s) =>
    let arrayType := recur (some s) namespace_
    if jsIncludes arrayType " | " then "(" ++ arrayType ++ ")[]" else arrayType ++ "[]"
  | none =>
    let arrayType := recur none namespace_
    if jsIncludes arrayType " | " then "(" ++ arrayType ++ ")[]" else arrayType ++ "[]"

/-- One property entry of the object branch (source lines 212-236):
`'key'(?): type; `. -/
def propEntryRender (recur : Option SchemaObject → String → String) (req : ReqVal)
    (namespace_ : String) (kv : String × SchemaObject) : String :=
  "'" ++ kv.1 ++ "'" ++ (if propRequiredFlag req kv.2 kv.1 then "" else "?") ++ ": "
    ++ recur (some kv.2) namespace_ ++ "; "

/-- The body of `defaultGetType` (source lines 112-240), with every
recursive occurrence of `defaultGetType` routed through `recur`. -/
def defaultGetTypeBody (recur : Option SchemaObject → String → String) :
    Option SchemaObject → String → String
  | none, _ => "any"
  | some (.raw s), _ => s
  | some (.node ref ty fmt enm oneOfL anyOfL allOfL props req itms sch _ _), namespace_ =>
    if optStrTruthy ref then
      joinDotFiltered [namespace_, getRefName (ref.getD "")]
    else if ty = some "null" then "null"
    else
      let t1 := if optInList fmt numberEnum then some "number" else ty
      let t2 := if enm.isSome then some "enum" else t1
      if optInList t2 numberEnum then "number"
      else if optInList t2 dateEnum then "Date"
      else if optInList t2 stringEnum then "string"
      else if t2 = some "boolean" then "boolean"
      else if t2 = some "array" then
        let itemsEff := match sch with
          | some (.node _ _ _ _ _ _ _ _ _ itms2 _ _ _) => itms2
          | some (.raw s') =>
            -- a truthy primitive in `schema` position has no `.items`
            if s' ≠ "" then none else itms
          | none => itms
        arrayExprOf recur itemsEff namespace_
      else if t2 = some "enum" then
        match enm with
        | some l => jsJoin " | " (dedupKeepFirst (l.map enumLitType))
        | none => "string"
      else
        match oneOfL with
        | some (x :: xs) =>
          jsJoin " | " ((x :: xs).map (fun m => recur (some m) namespace_))
        | _ =>
          match anyOfL with
          | some (x :: xs) =>
            jsJoin " | " ((x :: xs).map (fun m => recur (some m) namespace_))
          | _ =>
            match allOfL with
            | some (x :: xs) =>
              "(" ++ jsJoin " & " ((x :: xs).map (fun m => recur (some m) namespace_)) ++ ")"
            | _ =>
              if ty = some "object" || props.isSome then
                match props with
                | some (p :: ps) =>
                  "\x7b " ++ String.join ((p :: ps).map (propEntryRender recur req namespace_))
                    ++ "\x7d"
                | _ => "Record<string, any>"
              else "any"

/-- Fuelled fixed point of `defaultGetTypeBody`. -/
def defaultGetTypeF : Nat → Option SchemaObject → String → String
  | 0, _, _ => "any"
  | fuel + 1, s?, namespace_ => defaultGetTypeBody (defaultGetTypeF fuel) s? namespace_

/-- `defaultGetType` (source lines 112-240).  `none` stands for the JS
`undefined`/`null` input handled by the leading check; the fuel always
exceeds the recursion depth (see above). -/
def defaultGetType (s? : Option SchemaObject) (namespace_ : String) : String :=
  defaultGetTypeF (optSchemaSize s? + 1) s? namespace_

/-! ## A JSON-like value model for the dynamic reference walk

`resolveRefObject` (source lines 1090-1110) walks the whole document with
untyped property accesses, so it is embedded over a small JS value type. -/

inductive JsValue where
  | vUndefined
  | vNull
  | vBool (b : Bool)
  | vNum (n : Int)
  | vStr (s : String)
  | vArr (elems : List JsValue)
  | vObj (fields : List (String × JsValue))

/-- JS truthiness. -/
def jsTruthy : JsValue → Bool
  | .vUndefined => false
  | .vNull => false
  | .vBool b => b
  | .vNum n => n ≠ 0
  | .vStr s => s ≠ ""
  | .vArr _ => true
  | .vObj _ => true

def lookupField : List (String × JsValue) → String → Option JsValue
  | [], _ => none
  | (k, v) :: rest, key => if k = key then some v else lookupField rest key

/-- JS property read `v[key]`: a missing key on an object, or any key on a
(boxed) primitive, yields `undefined`; arrays answer `length` and numeric
indices. -/
def getField : JsValue → String → JsValue
  | .vObj fs, k => (lookupField fs k).getD .vUndefined
  | .vArr es, k =>
    if k = "length" then .vNum es.length
    else match k.toNat? with
      | some i => (es.get? i).getD .vUndefined
      | none => .vUndefined
  | _, _ => .vUndefined

/-- The `refPaths.forEach((node) => { obj = obj[node]; })` walk: reading a
property of `undefined`/`null` throws a `TypeError` in JS. -/
def walkSegments (v : JsValue) : List String → Except String JsValue
  | [] => .ok v
  | seg :: rest =>
    match v with
    | .vUndefined =>
      .error ("TypeError: Cannot read properties of undefined (reading '" ++ seg ++ "')")
    | .vNull =>
      .error ("TypeError: Cannot read properties of null (reading '" ++ seg ++ "')")
    | w => walkSegments (getField w seg) rest

/-- Spread `{...v}`: an object contributes its fields; a primitive
contributes nothing (`{...5}` is `{}`).  (Spreading a string or an array
would contribute index keys, a shape no theorem below relies on.) -/
def spreadFields : JsValue → List (String × JsValue)
  | .vObj fs => fs
  | _ => []

/-- Setting the `type` key of an object literal built by spread: an existing
key keeps its position with the new value, otherwise the key is appended. -/
def jsSetField (fs : List (String × JsValue)) (k : String) (v : JsValue) :
    List (String × JsValue) :=
  if fs.any (fun p => p.1 = k) then fs.map (fun p => if p.1 = k then (k, v) else p)
  else fs ++ [(k, v)]

/-- `resolveRefObject` (source lines 1090-1110).  The fuel models the JS call
stack; exhausting it yields the `RangeError` an unbounded reference cycle
would produce.  Chains of depth `d` need fuel `> d`, so every hypothesis
below quantifies the fuel. -/
def resolveRefObject (doc : JsValue) : Nat → JsValue → Except String JsValue
  | 0, _ => .error "RangeError: Maximum call stack size exceeded"
  | fuel + 1, refObject =>
    if !jsTruthy refObject || !jsTruthy (getField refObject "$ref") then .ok refObject
    else
      match getField refObject "$ref" with
      | .vStr s =>
        let refPaths := jsSplit s "/"
        if refPaths.headD "" = "#" then
          match walkSegments doc (refPaths.drop 1) with
          | .error e => .error e
          | .ok obj =>
            if !jsTruthy obj then .error ("[GenSDK] Data Error! Notfoud: " ++ s)
            else
              match resolveRefObject doc fuel obj with
              | .error e => .error e
              | .ok resolved =>
                if jsTruthy (getField obj "$ref") then
                  match resolveRefObject doc fuel obj with
                  | .error e => .error e
                  | .ok r2 =>
                    .ok (.vObj (jsSetField (spreadFields resolved) "type" (getField r2 "type")))
                else .ok (.vObj (jsSetField (spreadFields resolved) "type" obj))
        else .ok refObject
      | _ =>
        -- a truthy non-string `$ref` has no `.split` method
        .error "TypeError: refObject.$ref.split is not a function"

/-! ## The typed document and configuration model

The remaining claims concern the typed pipeline (`ServiceGenerator`
constructor, `getServiceTP`, `getParamsTP`, `getInterfaceTP`,
`resolveAllOfObject`), embedded over openapi3-ts-shaped structures.
`requestBody`/`responses` and the fields of the emitted descriptor derived
from them (`body`, `file`, `response`, `desc`, `options`, `hasFormData`,
`hasHeader`) are rendering inputs produced by `getBodyTP`/`getFileTP`/
`getResponseTP`; they influence none of grouping, naming, aliasing, path
rewriting or ordering, and are omitted from this embedding. -/

structure ParameterObject where
  name : Option String
  paramIn : Option String
  required : Option Bool
  schema : Option SchemaObject
  descr : Option String
  ptype : Option String
  pRef : Option String

/-- The vendor bundle `extensions['x-antTech-description']`. -/
structure VendorBundle where
  apiName : Option String
  antTechVersion : Option String
  productCode : Option String
  antTechApiName : Option String

structure ExtensionsObj where
  antTech : Option VendorBundle

/-- An operation object, with the fields the generator reads.
`routerController` is the vendor field `x-swagger-router-controller`. -/
structure OperationObject where
  routerController : Option String
  tags : Option (List String)
  operationId : Option String
  parameters : Option (List ParameterObject)
  summary : Option String
  descr : Option String
  extensions : Option ExtensionsObj

structure PathItem where
  get : Option OperationObject
  put : Option OperationObject
  post : Option OperationObject
  delete : Option OperationObject
  patch : Option OperationObject
  parameters : Option (List ParameterObject)

structure Components where
  schemas : Option (List (String × SchemaObject))

structure InfoObject where
  version : String

structure OpenAPIObject where
  info : InfoObject
  paths : Option (List (String × PathItem))
  components : Option Components

/-- `APIDataType`: the operation together with the `path`/`method` fields the
constructor spreads in. -/
structure APIDataType where
  path : String
  method : String
  op : OperationObject

/-- Argument record of a functional `apiPrefix` (its `namespace` key carries
the tag). -/
structure PrefixArgs where
  path : String
  method : String
  namespaceTag : String
  functionName : String

/-- `config.apiPrefix`: absent, a literal string, or a callback. -/
inductive ApiPrefixCfg where
  | absent
  | strVal (s : String)
  | func (f : PrefixArgs → String)

/-- The hook overrides read by the embedded pipeline.  A `none` result from a
hook means the JS hook returned `undefined` (defer to default). -/
structure Hook where
  afterOpenApiDataInited : Option (OpenAPIObject → Option OpenAPIObject)
  customFunctionName : Option (APIDataType → String)
  customTypeName : Option (APIDataType → String)
  customClassName : Option (String → String)
  customFileNames : Option (OperationObject → String → String → Option (List String))
  customType : Option (Option SchemaObject → Option String → Option String)

/-- The hook with every override absent. -/
def noHook : Hook :=
  { afterOpenApiDataInited := none, customFunctionName := none, customTypeName := none,
    customClassName := none, customFileNames := none, customType := none }

structure GenConfig where
  namespaceOpt : Option String
  apiPrefixCfg : ApiPrefixCfg
  isCamelCase : Bool
  hook : Option Hook

/-- A plain configuration (no namespace, no prefix, no camel-casing, no
hooks). -/
def plainConfig : GenConfig :=
  { namespaceOpt := none, apiPrefixCfg := .absent, isCamelCase := false, hook := none }

/-- `getType` (source lines 942-951): the `customType` hook may supply the
expression; a non-string result falls back to `defaultGetType`.  The second
argument mirrors the possibly-`undefined` `namespace` argument
(`defaultGetType` defaults it to `''`). -/
def getType (cfg : GenConfig) (s : Option SchemaObject) (namespace_ : Option String) : String :=
  let fallback := defaultGetType s (namespace_.getD "")
  match cfg.hook with
  | some h =>
    match h.customType with
    | some f => match f s namespace_ with
      | some t => t
      | none => fallback
    | none => fallback
  | none => fallback

/-! ## Tag resolution and the grouping pass (constructor, source lines 292-358) -/

/-- `defaultGetFileTag` (source lines 292-298).  The JS expression is
`rc ? [rc] : tags || [operationId] || [apiPath.replace('/','').split('/')[1]]`;
the third alternative is dead code, because `[operationId]` is a one-element
array and arrays are truthy even when `operationId` is `undefined` — hence
the `Option String` elements. -/
def defaultGetFileTag (op : OperationObject) (_apiPath : String) (_apiMethod : String) :
    List (Option String) :=
  match op.routerController with
  | some rc =>
    if rc ≠ "" then [some rc]
    else match op.tags with
      | some ts => ts.map some
      | none => [op.operationId]
  | none =>
    match op.tags with
    | some ts => ts.map some
    | none => [op.operationId]

/-- The constructor's tag computation (source lines 328-340):
`hookCustomFileNames = config.hook?.customFileNames || defaultGetFileTag`,
then `tags = hookCustomFileNames(...)`, falling back to `defaultGetFileTag`
only when the hook returned a falsy value (an empty array is truthy and is
used as-is). -/
def resolveOperationTags (cfg : GenConfig) (op : OperationObject) (p method : String) :
    List (Option String) :=
  match cfg.hook with
  | some h =>
    match h.customFileNames with
    | some f =>
      match f op p method with
      | some l => l.map some
      | none => defaultGetFileTag op p method
    | none => defaultGetFileTag op p method
  | none => defaultGetFileTag op p method

/-- Modelled from the spec: lodash's `camelCase` (an external library, not
part of this repository), restricted to the ASCII behaviour: split into
words at non-alphanumeric characters, lower-to-upper boundaries,
letter/digit boundaries and upper-run/lower boundaries; lowercase the first
word, capitalize the rest.  The fuel equals the input length and always
suffices (each step consumes at least one character). -/
def asciiWordsGo : Nat → List Char → List (List Char)
  | 0, _ => []
  | _, [] => []
  | fuel + 1, c :: cs =>
    if c.isDigit then
      ((c :: cs).takeWhile Char.isDigit) :: asciiWordsGo fuel ((c :: cs).dropWhile Char.isDigit)
    else if c.isLower then
      ((c :: cs).takeWhile Char.isLower) :: asciiWordsGo fuel ((c :: cs).dropWhile Char.isLower)
    else if c.isUpper then
      let uppers := (c :: cs).takeWhile Char.isUpper
      let rest := (c :: cs).dropWhile Char.isUpper
      match rest with
      | r :: _ =>
        if r.isLower then
          if uppers.length = 1 then
            (c :: rest.takeWhile Char.isLower) :: asciiWordsGo fuel (rest.dropWhile Char.isLower)
          else
            uppers.dropLast ::
              (uppers.getLast?.toList ++ rest.takeWhile Char.isLower) ::
              asciiWordsGo fuel (rest.dropWhile Char.isLower)
        else uppers :: asciiWordsGo fuel rest
      | [] => [uppers]
    else asciiWordsGo fuel cs

def capitalizeWord (w : List Char) : List Char :=
  match w with
  | [] => []
  | c :: cs => c.toUpper :: cs.map Char.toLower

/-- Modelled from the spec: lodash `camelCase` (external library). -/
def lodashCamelCase (s : String) : String :=
  match asciiWordsGo (s.length + 1) s.data with
  | [] => ""
  | w :: ws => ⟨w.map Char.toLower ++ (ws.map capitalizeWord).flatten⟩

/-- One tag string as grouped by the constructor:
`isCamelCase ? camelCase(resolveTypeName(tagString)) : resolveTypeName(tagString)`.
A missing tag string (`undefined`, from a missing `operationId`) flows
through `resolveTypeName` like the empty string: `getTypeLastName` coerces it
with `typeName || ''` and `ReservedDict.check(undefined)` is false. -/
def tagStringResolve (cfg : GenConfig) (t : Option String) : String :=
  let r := resolveTypeName (t.getD "")
  if cfg.isCamelCase then lodashCamelCase r else r

def methodNames : List String := ["get", "put", "post", "delete", "patch"]

def opAt (it : PathItem) (m : String) : Option OperationObject :=
  if m = "get" then it.get
  else if m = "put" then it.put
  else if m = "post" then it.post
  else if m = "delete" then it.delete
  else if m = "patch" then it.patch
  else none

/-- `if (!this.apiData[tag]) this.apiData[tag] = []; this.apiData[tag].push(v)`
on an insertion-ordered string-keyed object (the produced tag keys are never
integer-like, so JS preserves insertion order). -/
def pushTag (m : List (String × List APIDataType)) (k : String) (v : APIDataType) :
    List (String × List APIDataType) :=
  if m.any (fun p => p.1 = k) then
    m.map (fun p => if p.1 = k then (p.1, p.2 ++ [v]) else p)
  else m ++ [(k, [v])]

/-- `hook.afterOpenApiDataInited(openAPIData) || openAPIData` (source lines
320-324); any object result is truthy. -/
def effectiveOpenAPIData (cfg : GenConfig) (doc : OpenAPIObject) : OpenAPIObject :=
  match cfg.hook with
  | some h =>
    match h.afterOpenApiDataInited with
    | some f => (f doc).getD doc
    | none => doc
  | none => doc

/-- The grouping pass of the constructor (source lines 329-357), on the
already-initialised document: every path crossed with the five methods, each
resolved tag receiving `{path: basePath + p, method, ...operationObject}`
with `basePath = ''`. -/
def buildApiDataOf (cfg : GenConfig) (d : OpenAPIObject) :
    List (String × List APIDataType) :=
  (d.paths.getD []).foldl
    (fun acc pp =>
      methodNames.foldl
        (fun acc2 method =>
          match opAt pp.2 method with
          | none => acc2
          | some op =>
            (resolveOperationTags cfg op pp.1 method).foldl
              (fun acc3 tagString =>
                pushTag acc3 (tagStringResolve cfg tagString)
                  { path := pp.1, method := method, op := op })
              acc2)
        acc)
    []

/-- The generator state after the constructor ran. -/
structure ServiceGen where
  config : GenConfig
  openAPIData : OpenAPIObject
  apiData : List (String × List APIDataType)

/-- `new ServiceGenerator(config, openAPIData)` (source lines 313-358),
restricted to the state the embedded methods read (`projectName`,
`templatesFolder`, `version`, `mappings`, `finalPath` only feed file
emission). -/
def mkServiceGenerator (cfg : GenConfig) (doc : OpenAPIObject) : ServiceGen :=
  let d := effectiveOpenAPIData cfg doc
  { config := cfg, openAPIData := d, apiData := buildApiDataOf cfg d }

/-! ## Function naming (source lines 422-430, 1036-1088, 1112-1127, util.ts) -/

/-- Generalisation of the separator-capitalising replace to a separator set
(`/[-_ .](\w)/g` for `stripDot`, `/[-_ ](\w)/g` for `replaceDot`). -/
def upperAfterSeps (seps : List Char) : List Char → List Char
  | [] => []
  | [c] => [c]
  | c :: d :: rest =>
    if seps.contains c && isWordChar d then d.toUpper :: upperAfterSeps seps rest
    else c :: upperAfterSeps seps (d :: rest)

/-- `stripDot` (util.ts): `str.replace(/[-_ .](\w)/g, (a, l) => l.toUpperCase())`. -/
def stripDot (s : String) : String :=
  ⟨upperAfterSeps ['-', '_', ' ', '.'] s.data⟩

/-- `replaceDot` (source lines 1117-1119). -/
def replaceDot (s : String) : String :=
  ⟨upperAfterSeps ['-', '_', ' '] (jsReplaceAllChar '.' "_" s).data⟩

/-- `resolveFunctionName` (source lines 1121-1127). -/
def resolveFunctionName (functionName methodName : String) : String :=
  if reservedCheck functionName then functionName ++ "Using" ++ jsToUpper methodName
  else functionName

/-- `getBasePrefix` (source lines 1062-1088): build, for every segment
position, the list of the segments the paths have there (the JS loop pushes
path by path, so column `k` holds the `k`-th segment of every path long
enough, in path order); de-duplicate each column; take columns while they
are singletons; join with `/` (a singleton JS array stringifies to its
element) and append a final `/`. -/
def getBasePrefixOf (paths : List String) : String :=
  let segLists := paths.map (fun p => jsSplit p "/")
  let maxLen := (segLists.map List.length).foldl Nat.max 0
  let arr := (List.range maxLen).map (fun k => segLists.filterMap (fun segs => segs.get? k))
  let res := (arr.map dedupKeepFirst).takeWhile (fun item => item.length = 1)
  jsJoin "/" (res.map (fun item => jsJoin "," item)) ++ "/"

/-- `toUpperFirstLetter` of `genDefaultFunctionName` (source lines 1038-1040). -/
def toUpperFirstLetter (text : String) : String :=
  match text.data with
  | [] => ""
  | c :: cs => ⟨c.toUpper :: cs⟩

/-- Helper for the replacement `/(-\w)+/g`: consume a maximal run of
`-letter` pairs, returning the letter of the last pair and the remainder. -/
def dashRunEnd : Nat → Char → List Char → Char × List Char
  | 0, last, s => (last, s)
  | fuel + 1, last, s =>
    match s with
    | '-' :: d :: rest => if isWordChar d then dashRunEnd fuel d rest else (last, s)
    | _ => (last, s)

/-- The replacement `s.replace(/(-\w)+/g, (m, p1) => p1?.slice(1).toUpperCase())`
of `genDefaultFunctionName` (source line 1052): each maximal run of
`-letter` pairs is replaced by the upper-cased letter of its last pair (the
captured group holds the last repetition).  The branch is unreachable in
practice — `resolveTypeName` output never contains `-` — and is translated
for completeness. -/
def dashGroupReplace : Nat → List Char → List Char
  | 0, s => s
  | _, [] => []
  | fuel + 1, c :: cs =>
    match c, cs with
    | '-', d :: rest =>
      if isWordChar d then
        let p := dashRunEnd fuel d rest
        p.1.toUpper :: dashGroupReplace fuel p.2
      else c :: dashGroupReplace fuel cs
    | _, _ => c :: dashGroupReplace fuel cs

/-- Regex test `/^{.+}$/gim` on a segment. -/
def matchesBraces (s : String) : Bool :=
  jsStartsWith s "\x7b" && jsEndsWith s "\x7d" && decide (3 ≤ s.length)

/-- The per-segment transform of `genDefaultFunctionName`
(source lines 1044-1059). -/
def titleSegment (str : String) : String :=
  let s := resolveTypeName str
  let s := if jsIncludes s "-" then ⟨dashGroupReplace (s.length + 1) s.data⟩ else s
  if matchesBraces s then "By" ++ toUpperFirstLetter (jsDropRightChars (jsDropChars s 1) 1)
  else toUpperFirstLetter s

/-- `genDefaultFunctionName` (source lines 1036-1061): remove the first
occurrence of the base prefix (plain-string `String.replace`), split on `/`,
title-case each resolved segment, join. -/
def genDefaultFunctionName (path : String) (basePre : String) : String :=
  String.join ((jsSplit (jsReplaceFirst basePre "" path) "/").map titleSegment)

/-- `getFuncationName` (source lines 422-430).  `Object.keys(paths)` is
modelled on the present `paths` map (a document without `paths` would make
the JS call itself throw). -/
def getFuncationName (g : ServiceGen) (data : APIDataType) : String :=
  let pathBase := getBasePrefixOf ((g.openAPIData.paths.getD []).map Prod.fst)
  match g.config.hook.bind Hook.customFunctionName with
  | some f => f data
  | none =>
    match data.op.operationId with
    | some oid =>
      if oid ≠ "" then resolveFunctionName (stripDot oid) data.method
      else data.method ++ genDefaultFunctionName data.path pathBase
    | none => data.method ++ genDefaultFunctionName data.path pathBase

/-- `getTypeName` (source lines 432-437).  The source's trailing
`?? data.operationId` can never fire: the `||` chain already produced a
non-nullish string. -/
def getTypeName (g : ServiceGen) (data : APIDataType) : String :=
  let namespace_ := match g.config.namespaceOpt with
    | some ns => if ns ≠ "" then ns ++ "." else ""
    | none => ""
  let typeName := match (g.config.hook.bind Hook.customTypeName).map (fun f => f data) with
    | some t => if t ≠ "" then t else getFuncationName g data
    | none => getFuncationName g data
  resolveTypeName (namespace_ ++ typeName ++ "Params")

/-! ## Parameter classification (getParamsTP, source lines 755-806) -/

/-- `DEFAULT_SCHEMA` (source lines 276-279). -/
def DEFAULT_SCHEMA : SchemaObject :=
  .node none (some "object") none none none none none
    (some [("id", .node none (some "number") none none none none none none .absent none none
      none none)])
    .absent none none none none

/-- A parameter as it appears inside `templateParams`: either a declared
parameter annotated with `{...p, isObject, type}`, or a synthesized
`{...DEFAULT_PATH_PARAM, name}`, later possibly extended with `alias` /
`isComplexType`. -/
structure ParamTP where
  name : Option String
  paramIn : Option String
  required : Option Bool
  schema : Option SchemaObject
  descr : Option String
  isObject : Bool
  ptype : String
  aliasName : Option String
  isComplexType : Option Bool

/-- `{...DEFAULT_PATH_PARAM, name}` (source lines 281-290 and 794-797). -/
def defaultPathParamWith (nm : String) : ParamTP :=
  { name := some nm, paramIn := some "path", required := some true,
    schema := some (.node none (some "string") none none none none none none .absent none none
      none none),
    descr := none, isObject := false, ptype := "string", aliasName := none,
    isComplexType := none }

/-- JS `a || b` on possibly-absent strings (`''` is falsy). -/
def jsOrStr (a b : Option String) : Option String :=
  match a with
  | some s => if s ≠ "" then some s else b
  | none => b

/-- The annotation map of `getParamsTP` (source lines 767-780):
`{...p, isObject, type}`.  The preceding `resolveRefObject(p)` is the
identity for a parameter that carries no live `$ref` (source lines
1090-1092); parameter-level `$ref` indirection is not modelled. -/
def annotateParam (g : ServiceGen) (p : ParameterObject) : ParamTP :=
  let schemaType : Option String := match p.schema with
    | some s => if schemaTruthy s then s.typeF else none
    | none => none
  let isDirectObject := jsOrStr schemaType p.ptype = some "object"
  let schemaRef : Option String := match p.schema with
    | some s => if schemaTruthy s then s.refF else none
    | none => none
  let refStr := (jsOrStr schemaRef p.pRef).getD ""
  let refName := ((jsSplit refStr "/").getLastD "")
  let deRefObj :=
    ((g.openAPIData.components.bind Components.schemas).getD []).find?
      (fun kv => kv.1 = refName)
  let isRefObject := match deRefObj with
    | some kv => (if schemaTruthy kv.2 then kv.2.typeF else none) = some "object"
    | none => false
  let schemaForType : SchemaObject := match p.schema with
    | some s => if schemaTruthy s then s else DEFAULT_SCHEMA
    | none => DEFAULT_SCHEMA
  { name := p.name, paramIn := p.paramIn, required := p.required, schema := p.schema,
    descr := p.descr, isObject := isDirectObject || isRefObject,
    ptype := getType g.config (some schemaForType) g.config.namespaceOpt,
    aliasName := none, isComplexType := none }

/-- `templateParams`: the record with optional `query`/`path`/`cookie` keys. -/
structure TemplateParams where
  query : Option (List ParamTP)
  path : Option (List ParamTP)
  cookie : Option (List ParamTP)

/-- All matches of `/\{(\w+)\}/g` in a path, in order. -/
def pathTemplateVarsGo : Nat → List Char → List String
  | 0, _ => []
  | _, [] => []
  | fuel + 1, c :: cs =>
    if c = '\x7b' then
      let word := cs.takeWhile isWordChar
      let rest := cs.dropWhile isWordChar
      match rest with
      | d :: rest2 =>
        if d = '\x7d' && !word.isEmpty then (⟨word⟩ : String) :: pathTemplateVarsGo fuel rest2
        else pathTemplateVarsGo fuel cs
      | [] => []
    else pathTemplateVarsGo fuel cs

def pathTemplateVars (s : String) : List String :=
  pathTemplateVarsGo (s.length + 1) s.data

/-- `getParamsTP` (source lines 755-806). -/
def getParamsTP (g : ServiceGen) (parameters : Option (List ParameterObject))
    (path : Option String) : TemplateParams :=
  let ps := parameters.getD []
  let mkSource := fun (source : String) =>
    if ps.isEmpty then none
    else
      let params := (ps.filter (fun p => p.paramIn = some source)).map (annotateParam g)
      if params.isEmpty then none else some params
  let base : TemplateParams :=
    { query := mkSource "query", path := mkSource "path", cookie := mkSource "cookie" }
  match path with
  | some pa =>
    if pa.length > 0 then
      let withSynth :=
        (pathTemplateVars pa).foldl
          (fun acc nm =>
            if acc.any (fun p => p.name = some nm) then acc
            else acc ++ [defaultPathParamWith nm])
          (base.path.getD [])
      if withSynth.isEmpty then { base with path := none }
      else { base with path := some withSynth }
    else base
  | none => base

/-! ## getServiceTP (source lines 439-614) -/

/-- The rewrite `path.replace(/:([^/]*)|{([^}]*)}/gi, (_, s1, s2) => "${"+(s1||s2)+"}")`
(source lines 476-479).  A `:` capture runs to the next `/`; an empty one
makes `s1 || s2` yield `undefined`, printed as `undefined` by the template
literal.  A `{` capture needs its closing brace, and may be empty. -/
def formatPathGo : Nat → List Char → List Char
  | 0, s => s
  | _, [] => []
  | fuel + 1, c :: cs =>
    if c = ':' then
      let cap := cs.takeWhile (fun d => d ≠ '/')
      let rest := cs.dropWhile (fun d => d ≠ '/')
      ("$\x7b".data ++ (if cap.isEmpty then "undefined".data else cap) ++ ['\x7d'])
        ++ formatPathGo fuel rest
    else if c = '\x7b' then
      let cap := cs.takeWhile (fun d => d ≠ '\x7d')
      let rest := cs.dropWhile (fun d => d ≠ '\x7d')
      match rest with
      | _ :: rest2 => ("$\x7b".data ++ cap ++ ['\x7d']) ++ formatPathGo fuel rest2
      | [] => c :: formatPathGo fuel cs
    else c :: formatPathGo fuel cs

def formatPath (s : String) : String :=
  ⟨formatPathGo (s.length + 1) s.data⟩

/-- The vendor-path rewrite (source lines 480-493): when the operation
carries `extensions['x-antTech-description']`, `antTechApiName || formattedPath`.
(The pushes to `this.mappings` and the `newApi.antTechVersion` write are
side outputs for file emission, not modelled.) -/
def vendorRewrite (op : OperationObject) (formattedPath : String) : String :=
  match op.extensions with
  | some ext =>
    match ext.antTech with
    | some vb =>
      match vb.antTechApiName with
      | some n => if n ≠ "" then n else formattedPath
      | none => formattedPath
    | none => formattedPath
  | none => formattedPath

/-- A possibly-`undefined` string under a JS template literal. -/
def jsTemplateStr : Option String → String
  | some s => s
  | none => "undefined"

/-- The alias attachment (source lines 496-499): `{...ele, alias: 'param'+index}`. -/
def escapePathParams (l : List ParamTP) : List ParamTP :=
  l.enum.map (fun p => { p.2 with aliasName := some ("param" ++ toString p.1) })

/-- The alias rewrite of the path (source lines 500-504): for each aliased
parameter, replace the first occurrence of `${name}` with `${alias}`. -/
def aliasRewritePath (escaped : List ParamTP) (formattedPath : String) : String :=
  escaped.foldl
    (fun fp param =>
      jsReplaceFirst ("$\x7b" ++ jsTemplateStr param.name ++ "\x7d")
        ("$\x7b" ++ param.aliasName.getD "" ++ "\x7d") fp)
    formattedPath

/-- The literal/template application of a non-empty trimmed prefix
(source lines 534-549). -/
def applyPrefixStr (pfx : String) (formattedPath : String) : String :=
  if pfx = "" then formattedPath
  else if jsStartsWith pfx (String.singleton (Char.ofNat 39))
      || jsStartsWith pfx "\"" || jsStartsWith pfx (String.singleton (Char.ofNat 96)) then
    let finalPfx := jsDropRightChars (jsDropChars pfx 1) 1
    if jsStartsWith formattedPath finalPfx || jsStartsWith formattedPath ("/" ++ finalPfx) then
      formattedPath
    else finalPfx ++ formattedPath
  else "$\x7b" ++ pfx ++ "\x7d" ++ formattedPath

/-- `getPrefixPath` (source lines 519-550). -/
def getPrefixPathOf (cfg : GenConfig) (formattedPath method tag functionName : String) : String :=
  match cfg.apiPrefixCfg with
  | .absent => formattedPath
  | .strVal s => if s = "" then formattedPath else applyPrefixStr (jsTrim s) formattedPath
  | .func f =>
    applyPrefixStr
      (jsTrim (f { path := formattedPath, method := method, namespaceTag := tag,
                   functionName := functionName }))
      formattedPath

/-- One step of the per-tag collision table `tmpFunctionRD` (source lines
470-474): a truthy stored counter renames to `name_(n+1)` and bumps the
counter; otherwise a truthy name is recorded with counter 1. -/
def dedupStep (rd : List (String × Nat)) (fn : String) : String × List (String × Nat) :=
  if fn ≠ "" then
    match rd.find? (fun p => p.1 = fn) with
    | some q =>
      if q.2 ≠ 0 then
        (fn ++ "_" ++ toString (q.2 + 1), rd.map (fun p => if p.1 = fn then (p.1, q.2 + 1) else p))
      else (fn, rd.map (fun p => if p.1 = fn then (p.1, 1) else p))
    | none => (fn, rd ++ [(fn, 1)])
  else (fn, rd)

/-- The emitted per-operation descriptor, restricted to the fields derived
from grouping, naming, parameters and paths (see the module comment above
for the omitted rendering-only fields). -/
structure APITPItem where
  functionName : String
  typeName : String
  path : String
  pathInComment : String
  hasPathVariables : Bool
  hasApiPrefixB : Bool
  method : String
  params : TemplateParams
  hasParams : Bool

/-- One descriptor (the body of the `map` at source lines 450-590), given
the collision table; returns the descriptor and the updated table. -/
def genDescriptor (g : ServiceGen) (tag : String) (api : APIDataType)
    (rd : List (String × Nat)) : APITPItem × List (String × Nat) :=
  let allParams := getParamsTP g api.op.parameters (some api.path)
  let params := allParams
  let fn0 := getFuncationName g api
  let fnRd := dedupStep rd fn0
  let functionName := fnRd.1
  let formattedPath0 := formatPath api.path
  let formattedPath1 := vendorRewrite api.op formattedPath0
  let escaped := escapePathParams (params.path.getD [])
  let formattedPath2 := aliasRewritePath escaped formattedPath1
  let finalParams :=
    if !escaped.isEmpty then { params with path := some escaped } else params
  let finalParams2 := match finalParams.query with
    | some q =>
      { finalParams with
        query := some (q.map (fun ele => { ele with isComplexType := some ele.isObject })) }
    | none => finalParams
  (⟨(if g.config.isCamelCase then lodashCamelCase functionName else functionName),
    getTypeName g api,
    getPrefixPathOf g.config formattedPath2 api.method tag functionName,
    jsReplaceAllChar '*' "&#42;" formattedPath2,
    jsIncludes formattedPath2 "\x7b",
    (match g.config.apiPrefixCfg with
     | .absent => false
     | .strVal s => s ≠ ""
     | .func _ => true),
    api.method,
    finalParams2,
    (finalParams2.query.isSome || finalParams2.path.isSome || finalParams2.cookie.isSome)⟩,
   fnRd.2)

/-- The descriptor map threading `tmpFunctionRD` through one tag's
operation list. -/
def genDescriptors (g : ServiceGen) (tag : String) :
    List APIDataType → List (String × Nat) → List APITPItem
  | [], _ => []
  | api :: rest, rd =>
    let p := genDescriptor g tag api rd
    p.1 :: genDescriptors g tag rest p.2

/-- The comparator relation of the final sort:
`(a, b) => a.path.localeCompare(b.path)`.  `localeCompare` is a
locale-dependent total order on strings; it is modelled by the canonical
total order — every theorem about the sort uses only totality and
transitivity. -/
def pathLe (a b : APITPItem) : Prop := a.path ≤ b.path

instance : DecidableRel pathLe :=
  fun a b => inferInstanceAs (Decidable (a.path ≤ b.path))

instance : IsTotal APITPItem pathLe := ⟨fun a b => le_total a.path b.path⟩

instance : IsTrans APITPItem pathLe := ⟨fun _ _ _ h1 h2 => le_trans h1 h2⟩

/-- `Array.prototype.sort` with a consistent comparator: some stable sort of
the list by the comparator (modelled by insertion sort). -/
def jsSortByPath (l : List APITPItem) : List APITPItem :=
  List.insertionSort pathLe l

/-- The per-tag output record of `getServiceTP`. -/
structure TagTP where
  genType : String
  className : String
  instanceName : String
  list : List APITPItem

/-- `getServiceTP` (source lines 439-614).  (The push to
`this.classNameList` only feeds the emitted index file and is not
modelled.) -/
def getServiceTP (g : ServiceGen) : List TagTP :=
  (g.apiData.enum.map (fun it =>
    let tag := it.2.1
    let filtered := it.2.2.filter (fun api => !jsIncludes api.path "$\x7b")
    let genParams := jsSortByPath (genDescriptors g tag filtered [])
    let fileName0 := replaceDot tag
    let fileName := if fileName0 ≠ "" then fileName0 else "api" ++ toString it.1
    let className := match g.config.hook.bind Hook.customClassName with
      | some f => f tag
      | none => fileName
    let instanceName := match fileName.data with
      | [] => "undefined"
      | c :: cs => (⟨c.toLower :: cs⟩ : String)
    ({ genType := "ts", className := className, instanceName := instanceName,
       list := genParams } : TagTP))).filter (fun ele => !ele.list.isEmpty)

/-! ## getProps / resolveAllOfObject (source lines 922-940, 1022-1033) -/

/-- The key strip `propName.replace(/[\[|\]]/g, '')` (the class contains
`[`, `|`, `]`). -/
def stripBracketBar (s : String) : String :=
  ⟨s.data.filter (fun c => c ≠ '[' && c ≠ ']' && c ≠ '|')⟩

/-- A property entry of `getProps`: `{...schema, name, type, desc, required}`. -/
structure PropTP where
  name : String
  ptype : String
  descText : String
  required : Bool
  src : SchemaObject

/-- One entry of `getProps` (source lines 925-938).  A schema with boolean
`required: true` makes `requiredPropKeys.some` a call on a boolean — a JS
`TypeError` modelled as the error case. -/
def getPropEntry (cfg : GenConfig) (req : ReqVal) (propName0 : String) (sub : SchemaObject) :
    Except String PropTP :=
  let schemaEff := if schemaTruthy sub then sub else DEFAULT_SCHEMA
  let propName := stripBracketBar propName0
  match req with
  | .boolV true => .error "TypeError: requiredPropKeys.some is not a function"
  | .arrV l =>
    .ok { name := propName, ptype := getType cfg (some schemaEff) none,
          descText := jsJoin " "
            (([schemaEff.titleF, schemaEff.descrF].filterMap id).filter (· ≠ "")),
          required := l.any (· = propName), src := schemaEff }
  | _ =>
    .ok { name := propName, ptype := getType cfg (some schemaEff) none,
          descText := jsJoin " "
            (([schemaEff.titleF, schemaEff.descrF].filterMap id).filter (· ≠ "")),
          required := false, src := schemaEff }

/-- JS `Array.prototype.map` over a callback that can throw: entries are
evaluated left to right and the first exception aborts the whole map. -/
def exceptMapList {α β : Type} (f : α → Except String β) : List α → Except String (List β)
  | [] => .ok []
  | a :: t =>
    match f a with
    | .error e => .error e
    | .ok b =>
      match exceptMapList f t with
      | .error e => .error e
      | .ok bs => .ok (b :: bs)

/-- `getProps` (source lines 922-940). -/
def getProps (cfg : GenConfig) (s : SchemaObject) : Except String (List PropTP) :=
  match s.propsF with
  | none => .ok []
  | some props => exceptMapList (fun kv => getPropEntry cfg s.requiredF kv.1 kv.2) props

/-- A member of one property group of `resolveAllOfObject`: a `$ref` member
contributes the single entry `{...item, type: name}`; any other member
contributes its `getProps` entries. -/
inductive AllOfItem where
  | refItem (item : SchemaObject) (ptype : String)
  | propItem (p : PropTP)

/-- The per-member group of `resolveAllOfObject` (source lines 1023-1025). -/
def allOfMemberGroup (cfg : GenConfig) (item : SchemaObject) :
    Except String (List AllOfItem) :=
  if optStrTruthy item.refF then
    .ok [AllOfItem.refItem item ((jsSplit (getType cfg (some item) none) "/").getLastD "")]
  else (getProps cfg item).map (·.map AllOfItem.propItem)

/-- `resolveAllOfObject` (source lines 1022-1033). -/
def resolveAllOfObject (cfg : GenConfig) (s : SchemaObject) :
    Except String (List (List AllOfItem)) :=
  match exceptMapList (allOfMemberGroup cfg) (s.allOfF.getD []) with
  | .error e => .error e
  | .ok props =>
    match s.propsF with
    | some _ =>
      match getProps cfg s with
      | .error e => .error e
      | .ok extProps => .ok (props ++ [extProps.map AllOfItem.propItem])
    | none => .ok props

/-! ## The document-mutating pass of getInterfaceTP (source lines 838-857)

`getInterfaceTP` executes, for every path and method of the *input
document*, `operationObject.parameters = operationObject.parameters?.filter(
(item) => item?.in !== 'header')` — an in-place write to the document.  The
embedding below returns the document as that pass leaves it. -/

def filterHeaderParams (ps : Option (List ParameterObject)) : Option (List ParameterObject) :=
  ps.map (fun l => l.filter (fun p => p.paramIn ≠ some "header"))

def stripHeaderFromOp (op : OperationObject) : OperationObject :=
  { op with parameters := filterHeaderParams op.parameters }

def docAfterInterfaceTP (d : OpenAPIObject) : OpenAPIObject :=
  { d with
    paths := d.paths.map (fun l => l.map (fun pp =>
      (pp.1,
       { pp.2 with
         get := pp.2.get.map stripHeaderFromOp,
         put := pp.2.put.map stripHeaderFromOp,
         post := pp.2.post.map stripHeaderFromOp,
         delete := pp.2.delete.map stripHeaderFromOp,
         patch := pp.2.patch.map stripHeaderFromOp }))) }

end Api2Ts

namespace Api2Ts

/-! # Claims

One theorem per claim of the specification, with counterexamples and
witnesses where applicable. -/

/-! ## C3 — internal reference resolution -/

/-- A document whose entry `a` is a node carrying a dangling reference. -/
def c3doc : JsValue := .vObj [("a", .vObj [("$ref", .vStr "#/missing")])]

/-- The node under test: an internal reference to `#/a`. -/
def c3node : JsValue := .vObj [("$ref", .vStr "#/a")]

/-- C3, counterexample.  For `{$ref: '#/a'}` every segment of the node's own
fragment resolves — `a` is present and truthy in the document — yet
`resolveRefObject` raises, because the dereferenced node is itself a
reference whose own lookup fails.  This refutes "if every segment resolves,
resolveRefObject returns the dereferenced node and never raises". -/
theorem C3_counterexample :
    walkSegments c3doc ["a"] = .ok (.vObj [("$ref", .vStr "#/missing")])
    ∧ jsTruthy (.vObj [("$ref", .vStr "#/missing")]) = true
    ∧ resolveRefObject c3doc 10 c3node =
        .error "[GenSDK] Data Error! Notfoud: #/missing" :=
  ⟨rfl, rfl, rfl⟩

/-- C3, amended.  For a node holding an internal fragment reference: a walk
ending in a falsy value raises the fatal `Notfoud` error; and when the walk
yields a truthy value that itself carries no reference, `resolveRefObject`
returns without raising — the dereferenced node spread, with its `type`
field set to the node itself.  (When the dereferenced node is itself a
reference, resolution recurses and may still raise, as the counterexample
shows.) -/
theorem C3_amended_resolveRef (doc node obj v : JsValue) (s : String)
    (segs : List String) (fuel : Nat)
    (h1 : jsTruthy node = true)
    (h2 : getField node "$ref" = .vStr s)
    (h3 : s ≠ "")
    (h4 : jsSplit s "/" = "#" :: segs) :
    (walkSegments doc segs = .ok v → jsTruthy v = false →
       resolveRefObject doc (fuel + 1) node =
         .error ("[GenSDK] Data Error! Notfoud: " ++ s))
    ∧ (walkSegments doc segs = .ok obj → jsTruthy obj = true →
       jsTruthy (getField obj "$ref") = false →
       resolveRefObject doc (fuel + 2) node =
         .ok (.vObj (jsSetField (spreadFields obj) "type" obj))) := by
  have hs : jsTruthy (JsValue.vStr s) = true := by simp [jsTruthy, h3]
  constructor
  · intro hwalk hv
    simp [resolveRefObject, h1, h2, hs, h4, hwalk, hv]
  · intro hwalk hobj hnoref
    simp [resolveRefObject, h1, h2, hs, h4, hwalk, hobj, hnoref]

/-- Witness document for the amended C3: `b` dereferences to a plain node. -/
def c3wDoc : JsValue := .vObj [("b", .vObj [("x", .vNum 1)])]

def c3wNode : JsValue := .vObj [("$ref", .vStr "#/b")]

/-- Witness for `C3_amended_resolveRef` at a concrete document. -/
theorem C3_amended_witness :
    resolveRefObject c3wDoc 3 c3wNode =
      .ok (.vObj [("x", .vNum 1), ("type", .vObj [("x", .vNum 1)])]) :=
  (C3_amended_resolveRef c3wDoc c3wNode (.vObj [("x", .vNum 1)])
      (.vObj [("x", .vNum 1)]) "#/b" ["b"] 1 rfl rfl (by decide) rfl).2 rfl rfl rfl

end Api2Ts

namespace Api2Ts

/-! ## C9 — the input document is mutated -/

/-- Look up a path item by key (`find?` models the JS object access). -/
def pathItemAt (d : OpenAPIObject) (p : String) : Option PathItem :=
  ((d.paths.getD []).find? (fun pp => pp.1 = p)).map Prod.snd

def c9headerParam : ParameterObject :=
  { name := some "token", paramIn := some "header", required := some true,
    schema := none, descr := none, ptype := none, pRef := none }

def c9op : OperationObject :=
  { routerController := none, tags := some ["t"], operationId := some "x",
    parameters := some [c9headerParam], summary := none, descr := none,
    extensions := none }

def c9doc : OpenAPIObject :=
  { info := { version := "1" },
    paths := some [("/a",
      { get := some c9op, put := none, post := none, delete := none, patch := none,
        parameters := none })],
    components := none }

/-- Number of parameters of the `get` operation at `/a`. -/
def c9paramCount (d : OpenAPIObject) : Nat :=
  match pathItemAt d "/a" with
  | some it =>
    match it.get with
    | some op => (op.parameters.getD []).length
    | none => 0
  | none => 0

/-- C9, counterexample: the operation node at `/a` declares one (header)
parameter; after the parameter-rewriting pass of `getInterfaceTP` its
parameter list is empty — the input document is not left unchanged. -/
theorem C9_counterexample :
    c9paramCount c9doc = 1 ∧ c9paramCount (docAfterInterfaceTP c9doc) = 0 :=
  ⟨rfl, rfl⟩

/-- `find?` by key commutes with a key-preserving value map. -/
theorem find?_map_keyed (l : List (String × PathItem)) (g : PathItem → PathItem)
    (p : String) :
    ((l.map (fun pp => (pp.1, g pp.2))).find? (fun pp => pp.1 = p)) =
      (l.find? (fun pp => pp.1 = p)).map (fun pp => (pp.1, g pp.2)) := by
  induction l with
  | nil => rfl
  | cons h t ih =>
    by_cases hp : h.1 = p
    · simp [List.find?_cons, hp]
    · simp [List.find?_cons, hp, ih]

/-- The header-stripped path item. -/
def stripItem (it : PathItem) : PathItem :=
  { it with
    get := it.get.map stripHeaderFromOp,
    put := it.put.map stripHeaderFromOp,
    post := it.post.map stripHeaderFromOp,
    delete := it.delete.map stripHeaderFromOp,
    patch := it.patch.map stripHeaderFromOp }

theorem opAt_stripItem (it : PathItem) (m : String) :
    opAt (stripItem it) m = (opAt it m).map stripHeaderFromOp := by
  unfold opAt stripItem
  by_cases h1 : m = "get"
  · simp [h1]
  · by_cases h2 : m = "put"
    · simp [h1, h2]
    · by_cases h3 : m = "post"
      · simp [h1, h2, h3]
      · by_cases h4 : m = "delete"
        · simp [h1, h2, h3, h4]
        · by_cases h5 : m = "patch"
          · simp [h1, h2, h3, h4, h5]
          · simp [h1, h2, h3, h4, h5]

/-- C9, amended.  The input document is not read-only: the parameter-
rewriting pass of `getInterfaceTP` replaces every operation node's parameter
list by the list with header parameters filtered out, and changes nothing
else — `info` and the named schemas under `components` are untouched, every
operation is still found under its path and method, only transformed by
`stripHeaderFromOp`; and an operation without header parameters is left
fully unchanged (the claim holds only in that special case). -/
theorem C9_amended_frame (d : OpenAPIObject) :
    (docAfterInterfaceTP d).info = d.info
    ∧ (docAfterInterfaceTP d).components = d.components
    ∧ (∀ p m, ((pathItemAt (docAfterInterfaceTP d) p).map (fun it => opAt it m)) =
        ((pathItemAt d p).map (fun it => (opAt it m).map stripHeaderFromOp)))
    ∧ (∀ op, (stripHeaderFromOp op).parameters =
        (op.parameters).map (fun l => l.filter (fun q => q.paramIn ≠ some "header")))
    ∧ (∀ op, (∀ q ∈ op.parameters.getD [], q.paramIn ≠ some "header") →
        stripHeaderFromOp op = op) := by
  refine ⟨rfl, rfl, ?_, ?_, ?_⟩
  · intro p m
    unfold pathItemAt docAfterInterfaceTP
    cases hp : d.paths with
    | none => rfl
    | some l =>
      simp only [Option.map_some', Option.getD_some]
      have : (l.map (fun pp => (pp.1, stripItem pp.2))).find? (fun pp => pp.1 = p) =
          (l.find? (fun pp => pp.1 = p)).map (fun pp => (pp.1, stripItem pp.2)) :=
        find?_map_keyed l stripItem p
      rw [show (fun pp : String × PathItem =>
            (pp.1,
             { pp.2 with
               get := pp.2.get.map stripHeaderFromOp,
               put := pp.2.put.map stripHeaderFromOp,
               post := pp.2.post.map stripHeaderFromOp,
               delete := pp.2.delete.map stripHeaderFromOp,
               patch := pp.2.patch.map stripHeaderFromOp })) =
          (fun pp : String × PathItem => (pp.1, stripItem pp.2)) from rfl]
      rw [this]
      cases l.find? (fun pp => pp.1 = p) with
      | none => rfl
      | some pp => simp [opAt_stripItem]
  · intro op
    rfl
  · intro op hq
    obtain ⟨rc, tg, oid, pars, sm, ds, ex⟩ := op
    unfold stripHeaderFromOp filterHeaderParams
    cases pars with
    | none => rfl
    | some l =>
      simp only [Option.map_some']
      have hl : List.filter (fun q => decide (q.paramIn ≠ some "header")) l = l := by
        apply List.filter_eq_self.mpr
        intro q hql
        simpa using hq q (by simpa using hql)
      rw [hl]

/-- Witness for the amended C9: at the concrete document, the operation is
still found at `/a` with its header parameter removed, and an operation
without header parameters survives unchanged. -/
theorem C9_amended_witness :
    ((pathItemAt (docAfterInterfaceTP c9doc) "/a").map (fun it => opAt it "get")) =
      ((pathItemAt c9doc "/a").map (fun it => (opAt it "get").map stripHeaderFromOp))
    ∧ stripHeaderFromOp { c9op with parameters := some [] } =
        { c9op with parameters := some [] } :=
  ⟨(C9_amended_frame c9doc).2.2.1 "/a" "get",
   (C9_amended_frame c9doc).2.2.2.2 { c9op with parameters := some [] } (by decide)⟩

end Api2Ts

namespace Api2Ts

/-! ## C7 — array item parenthesization -/

/-- Spec-worded (from the claim, for comparison with the code's test):
"denotes a union (contains a top-level or-join)" — a ` | ` join not nested
inside parentheses, braces, brackets, or a string literal. -/
def topLevelOrJoinGo : List Char → Nat → Bool → Bool
  | [], _, _ => false
  | c :: cs, depth, inStr =>
    if c = '"' then topLevelOrJoinGo cs depth (!inStr)
    else if inStr then topLevelOrJoinGo cs depth inStr
    else if c = '(' || c = '\x7b' || c = '[' then topLevelOrJoinGo cs (depth + 1) inStr
    else if c = ')' || c = '\x7d' || c = ']' then topLevelOrJoinGo cs (depth - 1) inStr
    else if c = ' ' && depth = 0 then
      (" | ".data.isPrefixOf (c :: cs)) || topLevelOrJoinGo cs depth inStr
    else topLevelOrJoinGo cs depth inStr

/-- Spec-worded: the claim's "denotes a union". -/
def topLevelOrJoin (s : String) : Bool :=
  topLevelOrJoinGo s.data 0 false

/-- An array schema whose single-schema item is the enumeration
`enum: ['a | b']`. -/
def c7item : SchemaObject :=
  .node none none none (some [.litStr "a | b"]) none none none none .absent none none none none

def c7schema : SchemaObject :=
  .node none (some "array") none none none none none none .absent (some (.one c7item)) none
    none none

/-- C7, counterexample: the item synthesizes to the single string-literal
type `"a | b"`, which denotes no union (its ` | ` sits inside a string
literal, not at top level), yet the array type is parenthesized — the code
tests for the substring ` | ` anywhere, not for a top-level or-join. -/
theorem C7_counterexample :
    defaultGetType (some c7schema) "" = "(\"a | b\")[]"
    ∧ defaultGetType (some c7item) "" = "\"a | b\""
    ∧ topLevelOrJoin "\"a | b\"" = false :=
  ⟨rfl, rfl, by decide⟩

/-- An array schema (type `'array'`, no `$ref`/`format`/`enum`/`schema`)
with a single-schema `items`. -/
def arrOf (it : SchemaObject) : SchemaObject :=
  .node none (some "array") none none none none none none .absent (some (.one it)) none
    none none

/-- C7, amended.  For an array schema with a single-schema item, the
synthesized expression is the item's expression followed by `[]`, wrapped in
parentheses exactly when the item's expression contains the substring ` | `
anywhere — a superset of the top-level or-joins: every expression with a
top-level or-join contains the substring (so genuine unions are always
wrapped), but nested or string-literal occurrences also trigger wrapping. -/
theorem C7_amended_arrayParen :
    (∀ (recur : Option SchemaObject → String → String) (it : SchemaObject)
       (namespace_ : String),
       defaultGetTypeBody recur (some (arrOf it)) namespace_ =
         (if jsIncludes (recur (some it) namespace_) " | "
          then "(" ++ recur (some it) namespace_ ++ ")[]"
          else recur (some it) namespace_ ++ "[]"))
    ∧ (∀ t : String, topLevelOrJoin t = true → jsIncludes t " | " = true) := by
  constructor
  · intro recur it namespace_
    rfl
  · intro t
    unfold topLevelOrJoin jsIncludes
    generalize t.data = l
    suffices h : ∀ (l : List Char) (d : Nat) (q : Bool),
        topLevelOrJoinGo l d q = true → listContainsSub " | ".data l = true by
      exact h l 0 false
    intro l
    induction l with
    | nil => intro d q h; simp [topLevelOrJoinGo] at h
    | cons c cs ih =>
      intro d q h
      have step : listContainsSub " | ".data cs = true →
          listContainsSub " | ".data (c :: cs) = true := by
        intro hc
        simp [listContainsSub, hc]
      rw [topLevelOrJoinGo] at h
      by_cases h1 : c = '"'
      · simp only [h1, if_true] at h
        exact step (ih _ _ h)
      · simp only [h1, if_false] at h
        by_cases h2 : q
        · simp only [h2, if_true] at h
          exact step (ih _ _ h)
        · simp only [h2, if_false] at h
          by_cases h3 : (c = '(' || c = '\x7b' || c = '[') = true
          · simp only [h3, if_true] at h
            exact step (ih _ _ h)
          · simp only [h3, if_false] at h
            by_cases h4 : (c = ')' || c = '\x7d' || c = ']') = true
            · simp only [h4, if_true] at h
              exact step (ih _ _ h)
            · simp only [h4, if_false] at h
              by_cases h5 : (c = ' ' && d = 0) = true
              · simp only [h5, if_true] at h
                cases hOr : (" | ".data.isPrefixOf (c :: cs)) with
                | true => simp [listContainsSub, hOr]
                | false =>
                  rw [hOr, Bool.false_or] at h
                  exact step (ih _ _ h)
              · simp only [h5, if_false] at h
                exact step (ih _ _ h)

/-- Witness for the amended C7: a genuine union item is parenthesized, a
plain item is not. -/
theorem C7_amended_witness :
    (defaultGetTypeBody (fun _ _ => "A | B") (some (arrOf c7item)) "" = "(A | B)[]")
    ∧ (defaultGetTypeBody (fun _ _ => "T") (some (arrOf c7item)) "" = "T[]")
    ∧ jsIncludes "A | B" " | " = true :=
  ⟨by rw [C7_amended_arrayParen.1]; rfl,
   by rw [C7_amended_arrayParen.1]; rfl,
   C7_amended_arrayParen.2 "A | B" (by decide)⟩

end Api2Ts

namespace Api2Ts

/-! ## C1 — tag resolution and omission -/

/-- Spec-worded: the dead third alternative of `defaultGetFileTag`,
`apiPath.replace('/', '').split('/')[1]` (first `/` removed, second
segment). -/
def secondPathSegment (apiPath : String) : Option String :=
  (jsSplit (jsReplaceFirst "/" "" apiPath) "/").get? 1

/-- Spec-worded (from the claim, for comparison): tags resolve by the
claimed priority — non-empty hook result; else vendor router field; else
declared tags; else operation id; else the path's second segment; else none
(operation omitted). -/
def claimedTagStrings (hookRes : Option (List String)) (op : OperationObject)
    (apiPath : String) : List String :=
  match hookRes with
  | some (t :: ts) => t :: ts
  | _ =>
    match op.routerController with
    | some rc => [rc]
    | none =>
      match op.tags with
      | some (t :: ts) => t :: ts
      | _ =>
        match op.operationId with
        | some oid => [oid]
        | none =>
          match secondPathSegment apiPath with
          | some s => [s]
          | none => []

/-- An operation with no router field, no tags, no operation id. -/
def c1op : OperationObject :=
  { routerController := none, tags := none, operationId := none, parameters := none,
    summary := none, descr := none, extensions := none }

/-- A document with a single path carrying a single `get` operation. -/
def singleGetDoc (p : String) (op : OperationObject) : OpenAPIObject :=
  { info := { version := "" },
    paths := some [(p,
      { get := some op, put := none, post := none, delete := none, patch := none,
        parameters := none })],
    components := none }

def c1doc : OpenAPIObject := singleGetDoc "/a/b" c1op

/-- C1, counterexample.  For a bare operation at `/a/b` the claim resolves
the tag to the path's second segment `b` (and would omit the operation only
if nothing resolved); the code instead resolves to the single missing
operation id — `[operationId]` is a truthy array even when `operationId` is
`undefined`, so the path-segment alternative is dead — and groups the
operation under the sanitized empty tag `""`, not under `"b"`, and does not
omit it. -/
theorem C1_counterexample :
    resolveOperationTags plainConfig c1op "/a/b" "get" = [none]
    ∧ claimedTagStrings none c1op "/a/b" = ["b"]
    ∧ (buildApiDataOf plainConfig c1doc).map Prod.fst = [""]
    ∧ (buildApiDataOf plainConfig c1doc).map (fun q => q.2.length) = [1] :=
  ⟨rfl, rfl, rfl, rfl⟩

theorem pushTag_ne_nil (m : List (String × List APIDataType)) (k : String)
    (v : APIDataType) : pushTag m k v ≠ [] := by
  unfold pushTag
  cases hb : m.any (fun p => p.1 = k) with
  | true =>
    simp only [if_true]
    intro he
    rcases m with _ | ⟨a, t⟩
    · simp at hb
    · simp at he
  | false => simp

theorem foldl_pushTag_ne_nil (tags : List (Option String))
    (acc : List (String × List APIDataType)) (h : acc ≠ [])
    (f : Option String → String) (v : APIDataType) :
    tags.foldl (fun a t => pushTag a (f t) v) acc ≠ [] := by
  induction tags generalizing acc with
  | nil => exact h
  | cons t ts ih => exact ih _ (pushTag_ne_nil _ _ _)

theorem foldl_pushTag_nil_iff (tags : List (Option String))
    (f : Option String → String) (v : APIDataType) :
    (tags.foldl (fun a t => pushTag a (f t) v) [] = []) ↔ tags = [] := by
  cases tags with
  | nil => simp
  | cons t ts =>
    simp only [List.foldl_cons]
    constructor
    · intro h
      exact absurd h (foldl_pushTag_ne_nil ts _ (pushTag_ne_nil [] _ _) f v)
    · intro h
      exact absurd h (by simp)

/-- C1, amended.  Without a `customFileNames` hook and with a falsy vendor
router field and no declared tags, the resolved tag list is always the
singleton holding the (possibly missing) operation id — the path's second
segment is never consulted; and an operation is omitted from the grouped
output exactly when its resolved tag list is empty (possible only through
the hook or a declared empty tags array, never through a missing id). -/
theorem C1_amended_grouping :
    (∀ (cfg : GenConfig) (op : OperationObject) (p m : String),
       cfg.hook = none → optStrTruthy op.routerController = false → op.tags = none →
       resolveOperationTags cfg op p m = [op.operationId])
    ∧ (∀ (cfg : GenConfig) (op : OperationObject) (p : String),
       buildApiDataOf cfg (singleGetDoc p op) = [] ↔
         resolveOperationTags cfg op p "get" = []) := by
  constructor
  · intro cfg op p m hhook hrc htags
    cases hr : op.routerController with
    | none => simp [resolveOperationTags, hhook, defaultGetFileTag, hr, htags]
    | some rc =>
      have : rc = "" := by
        rw [hr] at hrc
        simpa [optStrTruthy] using hrc
      subst this
      simp [resolveOperationTags, hhook, defaultGetFileTag, hr, htags]
  · intro cfg op p
    show ((singleGetDoc p op).paths.getD []).foldl _ [] = [] ↔ _
    simp only [singleGetDoc, Option.getD_some, List.foldl_cons, List.foldl_nil]
    simp only [methodNames, List.foldl_cons, List.foldl_nil, opAt]
    simp only [if_true, if_false, reduceIte]
    exact foldl_pushTag_nil_iff _ _ _

/-- Witness for the amended C1 at the concrete bare operation. -/
theorem C1_amended_witness :
    resolveOperationTags plainConfig c1op "/a/b" "get" = [c1op.operationId]
    ∧ (buildApiDataOf plainConfig (singleGetDoc "/a/b" c1op) = [] ↔
        resolveOperationTags plainConfig c1op "/a/b" "get" = []) :=
  ⟨C1_amended_grouping.1 plainConfig c1op "/a/b" "get" rfl rfl rfl,
   C1_amended_grouping.2 plainConfig c1op "/a/b"⟩

end Api2Ts

namespace Api2Ts

/-! ## C4 — allOf property groups -/

theorem exceptMapList_ok_length {α β : Type} (f : α → Except String β) :
    ∀ (l : List α) (r : List β), exceptMapList f l = .ok r → r.length = l.length := by
  intro l
  induction l with
  | nil =>
    intro r h
    simp only [exceptMapList, Except.ok.injEq] at h
    subst h; rfl
  | cons a t ih =>
    intro r h
    simp only [exceptMapList] at h
    cases hf : f a with
    | error e => rw [hf] at h; simp at h
    | ok b =>
      rw [hf] at h
      cases ht : exceptMapList f t with
      | error e => rw [ht] at h; simp at h
      | ok bs =>
        rw [ht] at h
        simp only [Except.ok.injEq] at h
        subst h
        simp [ih bs ht]

theorem exceptMapList_ok_get {α β : Type} (f : α → Except String β) :
    ∀ (l : List α) (r : List β), exceptMapList f l = .ok r →
      ∀ (i : Nat) (a : α), l.get? i = some a →
        ∃ b, r.get? i = some b ∧ f a = .ok b := by
  intro l
  induction l with
  | nil => intro r _ i a ha; simp at ha
  | cons x t ih =>
    intro r h i a ha
    simp only [exceptMapList] at h
    cases hf : f x with
    | error e => rw [hf] at h; simp at h
    | ok b =>
      rw [hf] at h
      cases ht : exceptMapList f t with
      | error e => rw [ht] at h; simp at h
      | ok bs =>
        rw [ht] at h
        simp only [Except.ok.injEq] at h
        subst h
        cases i with
        | zero =>
          simp only [List.get?_cons_zero, Option.some.injEq] at ha
          subst ha
          exact ⟨b, rfl, hf⟩
        | succ j =>
          simp only [List.get?_cons_succ] at ha ⊢
          exact ih bs ht j a ha

def c4strSchema : SchemaObject :=
  .node none (some "string") none none none none none none .absent none none none none

def c4numSchema : SchemaObject :=
  .node none (some "number") none none none none none none .absent none none none none

/-- The `$ref` member `{$ref: '#/components/schemas/A'}`. -/
def c4refMember : SchemaObject :=
  .node (some "#/components/schemas/A") none none none none none none none .absent none none
    none none

/-- The member `{properties: {x: string}}`. -/
def c4mem2 : SchemaObject :=
  .node none none none none none none none (some [("x", c4strSchema)]) .absent none none
    none none

/-- `allOf = [{$ref: '#/A'}, {properties: {x: string}}]` with sibling
`properties: {y: number}`. -/
def c4schema : SchemaObject :=
  .node none none none none none none (some [c4refMember, c4mem2])
    (some [("y", c4numSchema)]) .absent none none none none

/-- C4.  For a schema with a non-empty `allOf`, successful resolution
returns one property group per `allOf` member plus, when the node declares
its own properties, one extra group appended last — the groups are never
flattened; a `$ref` member always yields a single-entry group holding its
resolved type name rather than expanded properties.  The claim's example
yields exactly three separate groups.  (By `resolveObject`'s dispatch this
is the resolution of any allOf node without `$ref` and `enum`, which are
checked first.) -/
theorem C4_allOf_groups :
    (∀ (cfg : GenConfig) (s : SchemaObject) (members : List SchemaObject)
       (groups : List (List AllOfItem)),
       s.allOfF = some members → members ≠ [] →
       resolveAllOfObject cfg s = .ok groups →
       (groups.length = members.length + (if s.propsF.isSome then 1 else 0))
       ∧ (∀ (i : Nat) (it : SchemaObject), members.get? i = some it →
           optStrTruthy it.refF = true →
           ∃ tname, groups.get? i = some [AllOfItem.refItem it tname])
       ∧ (s.propsF.isSome → ∃ ext, getProps cfg s = .ok ext ∧
           groups.getLast? = some (ext.map AllOfItem.propItem)))
    ∧ resolveAllOfObject plainConfig c4schema = .ok
        [[AllOfItem.refItem c4refMember "A"],
         [AllOfItem.propItem
           { name := "x", ptype := "string", descText := "", required := false,
             src := c4strSchema }],
         [AllOfItem.propItem
           { name := "y", ptype := "number", descText := "", required := false,
             src := c4numSchema }]] := by
  constructor
  · intro cfg s members groups hall hne hres
    unfold resolveAllOfObject at hres
    rw [hall] at hres
    simp only [Option.getD_some] at hres
    cases hmap : exceptMapList (allOfMemberGroup cfg) members with
    | error e => rw [hmap] at hres; simp at hres
    | ok props =>
      rw [hmap] at hres
      have hlen : props.length = members.length := exceptMapList_ok_length _ _ _ hmap
      have hget : ∀ (i : Nat) (it : SchemaObject), members.get? i = some it →
          optStrTruthy it.refF = true →
          ∃ tname, props.get? i = some [AllOfItem.refItem it tname] := by
        intro i it hi href
        obtain ⟨b, hb, hfb⟩ := exceptMapList_ok_get _ _ _ hmap i it hi
        refine ⟨(jsSplit (getType cfg (some it) none) "/").getLastD "", ?_⟩
        rw [hb]
        unfold allOfMemberGroup at hfb
        rw [href] at hfb
        simp only [if_true] at hfb
        simp only [Except.ok.injEq] at hfb
        rw [hfb]
      cases hp : s.propsF with
      | none =>
        rw [hp] at hres
        simp only [Except.ok.injEq] at hres
        subst hres
        refine ⟨by simp [hlen, hp], hget, by simp [hp]⟩
      | some pl =>
        rw [hp] at hres
        cases hext : getProps cfg s with
        | error e => rw [hext] at hres; simp at hres
        | ok ext =>
          rw [hext] at hres
          simp only [Except.ok.injEq] at hres
          subst hres
          refine ⟨by simp [hlen, hp], ?_, ?_⟩
          · intro i it hi href
            obtain ⟨tname, ht⟩ := hget i it hi href
            have hmem : i < members.length := by
              by_contra hk
              rw [List.get?_eq_none.mpr (Nat.le_of_not_lt hk)] at hi
              exact absurd hi (by simp)
            have hi' : i < props.length := by rw [hlen]; exact hmem
            exact ⟨tname, by rw [List.get?_append hi']; exact ht⟩
          · intro _
            exact ⟨ext, rfl, by simp⟩
  · rfl

/-- Witness for C4 at the claim's example schema. -/
theorem C4_witness :
    (∃ groups, resolveAllOfObject plainConfig c4schema = .ok groups ∧
      groups.length =
        [c4refMember, c4mem2].length + (if c4schema.propsF.isSome then 1 else 0) ∧
      (∃ tname, groups.get? 0 = some [AllOfItem.refItem c4refMember tname])) :=
  ⟨_, C4_allOf_groups.2,
    (C4_allOf_groups.1 plainConfig c4schema [c4refMember, c4mem2] _ rfl
      (List.cons_ne_nil _ _) C4_allOf_groups.2).1,
    (C4_allOf_groups.1 plainConfig c4schema [c4refMember, c4mem2] _ rfl
      (List.cons_ne_nil _ _) C4_allOf_groups.2).2.1 0 c4refMember rfl rfl⟩

end Api2Ts

namespace Api2Ts

/-! ## C6 — required-property signals -/

/-- An object schema: `type: 'object'` with properties and a `required`
field. -/
def objSchema (props : List (String × SchemaObject)) (req : ReqVal) : SchemaObject :=
  .node none (some "object") none none none none none (some props) req none none none none

/-- C6.  For an object schema with properties, each property renders as
`'key': type; ` (required, no `?` marker) or `'key'?: type; ` (optional),
and the marker is omitted exactly when at least one of the claim's three
signals holds: the schema's `required` field is the boolean `true`, the key
appears in the schema's `required` array, or the property node itself
carries a truthy `required` flag — a plain disjunction with no priority
among the signals.  (The last hypothesis excludes a primitive in property
position, on which JS's `'required' in` probe would itself throw.) -/
theorem C6_required_signals :
    (∀ (recur : Option SchemaObject → String → String)
       (props : List (String × SchemaObject)) (req : ReqVal) (namespace_ : String)
       (p : String × SchemaObject) (ps : List (String × SchemaObject)),
       props = p :: ps →
       defaultGetTypeBody recur (some (objSchema props req)) namespace_ =
         "\x7b " ++ String.join (props.map (propEntryRender recur req namespace_)) ++ "\x7d")
    ∧ (∀ (recur : Option SchemaObject → String → String) (req : ReqVal)
       (namespace_ : String) (key : String) (sub : SchemaObject),
       propEntryRender recur req namespace_ (key, sub) =
         "'" ++ key ++ "'" ++ (if propRequiredFlag req sub key then "" else "?") ++ ": "
           ++ recur (some sub) namespace_ ++ "; ")
    ∧ (∀ (req : ReqVal) (key : String) (sub : SchemaObject),
       (∀ str, sub ≠ .raw str) →
       (propRequiredFlag req sub key = true ↔
         (req = ReqVal.boolV true
          ∨ (∃ l, req = ReqVal.arrV l ∧ key ∈ l)
          ∨ hasTruthyRequired sub = true))) := by
  refine ⟨?_, ?_, ?_⟩
  · intro recur props req namespace_ p ps hp
    subst hp
    rfl
  · intro recur req namespace_ key sub
    rfl
  · intro req key sub hraw
    have hst : schemaTruthy sub = true := by
      cases sub with
      | raw str => exact absurd rfl (hraw str)
      | node a b c d e f g h i j k l m => rfl
    cases req with
    | absent => simp [propRequiredFlag, hst]
    | boolV b => cases b <;> simp [propRequiredFlag, hst]
    | arrV l => simp [propRequiredFlag, hst]

/-- Witness for C6: a property required through the `required` array
renders unmarked, one with no signal renders with `?`. -/
theorem C6_witness :
    (propEntryRender (fun _ _ => "number") (ReqVal.arrV ["name"]) "" ("name", c4numSchema) =
      "'name': number; ")
    ∧ (propEntryRender (fun _ _ => "number") (ReqVal.arrV ["name"]) "" ("id", c4numSchema) =
      "'id'?: number; ")
    ∧ (propRequiredFlag (ReqVal.arrV ["name"]) c4numSchema "name" = true)
    ∧ (propRequiredFlag (ReqVal.arrV ["name"]) c4numSchema "id" = false) := by
  refine ⟨?_, ?_, ?_, ?_⟩
  · rw [C6_required_signals.2.1]
    rfl
  · rw [C6_required_signals.2.1]
    rfl
  · exact (C6_required_signals.2.2 (ReqVal.arrV ["name"]) "name" c4numSchema
      (fun str h => by cases h)).mpr (Or.inr (Or.inl ⟨["name"], rfl, by simp⟩))
  · have := C6_required_signals.2.2 (ReqVal.arrV ["name"]) "id" c4numSchema
      (fun str h => by cases h)
    by_contra hc
    have hb : propRequiredFlag (ReqVal.arrV ["name"]) c4numSchema "id" = true := by
      revert hc
      cases propRequiredFlag (ReqVal.arrV ["name"]) c4numSchema "id" <;> simp
    rcases this.mp hb with h1 | ⟨l, hl, hmem⟩ | h3
    · cases h1
    · cases hl
      simp at hmem
    · simp [hasTruthyRequired, c4numSchema] at h3

end Api2Ts

namespace Api2Ts

/-! ## C8 — positional path-parameter aliases -/

/-- The claim's example operation: `GET /users/{id}/posts/{postId}`. -/
def c8op : OperationObject :=
  { routerController := none, tags := some ["pets"], operationId := some "getPetById",
    parameters := none, summary := none, descr := none, extensions := none }

def c8doc : OpenAPIObject := singleGetDoc "/users/\x7bid\x7d/posts/\x7bpostId\x7d" c8op

def c8gen : ServiceGen := mkServiceGenerator plainConfig c8doc

def dfltTag : TagTP := { genType := "", className := "", instanceName := "", list := [] }

def dfltItem : APITPItem :=
  { functionName := "", typeName := "", path := "", pathInComment := "",
    hasPathVariables := false, hasApiPrefixB := false, method := "",
    params := { query := none, path := none, cookie := none }, hasParams := false }

/-- C8.  Path parameters receive positional aliases in parameter-list
order: the `i`-th aliased entry is the `i`-th parameter unchanged except for
its new alias `param<i>`; and on the claim's example the emitted descriptor
rewrites the path template to reference `${param0}`/`${param1}` and its
path-parameter list carries names `id`/`postId` aliased `param0`/`param1`. -/
theorem C8_path_aliases :
    (∀ (l : List ParamTP) (i : Nat) (h : i < l.length),
       (escapePathParams l)[i]? =
         some { l[i] with aliasName := some ("param" ++ toString i) })
    ∧ (((getServiceTP c8gen).getD 0 dfltTag).list.getD 0 dfltItem).path =
        "/users/$\x7bparam0\x7d/posts/$\x7bparam1\x7d"
    ∧ ((((getServiceTP c8gen).getD 0 dfltTag).list.getD 0 dfltItem).params.path.getD
          []).map (fun p => (jsTemplateStr p.name, p.aliasName)) =
        [("id", some "param0"), ("postId", some "param1")] := by
  refine ⟨?_, rfl, rfl⟩
  intro l i h
  unfold escapePathParams
  rw [List.getElem?_map, List.getElem?_enum, List.getElem?_eq_getElem h]
  rfl

/-- Witness for the alias-index part of C8 at a concrete parameter list. -/
theorem C8_witness :
    (escapePathParams [defaultPathParamWith "id", defaultPathParamWith "postId"])[1]? =
      some { [defaultPathParamWith "id", defaultPathParamWith "postId"][1] with
        aliasName := some ("param" ++ toString 1) } :=
  C8_path_aliases.1 [defaultPathParamWith "id", defaultPathParamWith "postId"] 1
    (by decide)

end Api2Ts

namespace Api2Ts

/-! ## C2 — per-tag descriptor lists are sorted by final path -/

/-- C2.  Every per-tag list emitted by `getServiceTP` is pairwise ordered by
the comparator relation on the descriptor's final `path` field (the path
after template rewriting, vendor replacement, alias substitution and
apiPrefix injection): any earlier descriptor's final path compares less than
or equal to any later one's. -/
theorem C2_sorted_by_path (g : ServiceGen) (i : Nat) :
    List.Pairwise pathLe (((getServiceTP g).getD i dfltTag).list) := by
  have hmem : ∀ tp ∈ getServiceTP g, List.Pairwise pathLe tp.list := by
    intro tp htp
    unfold getServiceTP at htp
    rw [List.mem_filter] at htp
    obtain ⟨hmap, _⟩ := htp
    rw [List.mem_map] at hmap
    obtain ⟨x, _, hx⟩ := hmap
    rw [← hx]
    have hs := List.sorted_insertionSort pathLe
      (genDescriptors g x.2.1 (List.filter (fun api => !jsIncludes api.path "$\x7b") x.2.2) [])
    exact hs
  rcases Nat.lt_or_ge i (getServiceTP g).length with hi | hi
  · have h1 : (getServiceTP g)[i]? = some ((getServiceTP g)[i]) :=
      List.getElem?_eq_getElem hi
    have h2 : (getServiceTP g).getD i dfltTag = (getServiceTP g)[i] := by
      simp [List.getD_eq_getElem?_getD, h1]
    rw [h2]
    exact hmem _ (List.getElem_mem hi)
  · have h1 : (getServiceTP g)[i]? = none := List.getElem?_eq_none hi
    have h2 : (getServiceTP g).getD i dfltTag = dfltTag := by
      simp [List.getD_eq_getElem?_getD, h1]
    rw [h2]
    simp [dfltTag]

end Api2Ts

namespace Api2Ts

/-! ## C5 — per-tag function-name collision suffixes -/

/-- The sequence of function names one tag's operations receive: the fold of
`dedupStep` that `genDescriptors` threads through `getServiceTP`. -/
def dedupNamesGo (rd : List (String × Nat)) : List String → List String
  | [] => []
  | n :: ns => (dedupStep rd n).1 :: dedupNamesGo (dedupStep rd n).2 ns

def dedupNames (names : List String) : List String := dedupNamesGo [] names

/-- The counter `tmpFunctionRD[n]` (0 when absent). -/
def rdCount (rd : List (String × Nat)) (n : String) : Nat :=
  match rd.find? (fun p => p.1 = n) with
  | some q => q.2
  | none => 0

theorem find?_map_keyNat (l : List (String × Nat)) (f : String × Nat → String × Nat)
    (hf : ∀ p, (f p).1 = p.1) (m : String) :
    (l.map f).find? (fun p => p.1 = m) = (l.find? (fun p => p.1 = m)).map f := by
  induction l with
  | nil => rfl
  | cons h t ih =>
    by_cases hm : h.1 = m
    · simp [List.find?_cons, hf, hm]
    · simp [List.find?_cons, hf, hm, ih]

theorem dedupStep_fst (rd : List (String × Nat)) (fn : String) (h : fn ≠ "") :
    (dedupStep rd fn).1 =
      if rdCount rd fn = 0 then fn else fn ++ "_" ++ toString (rdCount rd fn + 1) := by
  unfold dedupStep rdCount
  simp only [h, if_true, ne_eq, not_false_eq_true, ite_true]
  cases hf : rd.find? (fun p => p.1 = fn) with
  | none => simp
  | some q =>
    by_cases hq : q.2 = 0
    · simp [hq]
    · simp [hq]

theorem dedupStep_snd_none (rd : List (String × Nat)) (fn : String) (h : fn ≠ "")
    (hf : rd.find? (fun p => p.1 = fn) = none) :
    (dedupStep rd fn).2 = rd ++ [(fn, 1)] := by
  unfold dedupStep
  rw [if_pos h, hf]

theorem dedupStep_snd_some (rd : List (String × Nat)) (fn : String) (q : String × Nat)
    (h : fn ≠ "") (hf : rd.find? (fun p => p.1 = fn) = some q) :
    (dedupStep rd fn).2 = rd.map (fun p => if p.1 = fn then (p.1, q.2 + 1) else p) := by
  unfold dedupStep
  rw [if_pos h, hf]
  by_cases hq : q.2 = 0
  · simp [hq]
  · simp [hq]

theorem dedupStep_rdCount (rd : List (String × Nat)) (fn : String) (h : fn ≠ "")
    (m : String) :
    rdCount (dedupStep rd fn).2 m =
      if m = fn then rdCount rd fn + 1 else rdCount rd m := by
  cases hf : rd.find? (fun p => p.1 = fn) with
  | none =>
    rw [dedupStep_snd_none rd fn h hf]
    unfold rdCount
    rw [List.find?_append]
    by_cases hm : m = fn
    · subst hm
      rw [hf]
      simp [List.find?_cons]
    · rw [if_neg hm]
      cases hg : rd.find? (fun p => p.1 = m) with
      | none => simp [hg, List.find?_cons, Ne.symm hm]
      | some q => simp [hg]
  | some q =>
    have hq1 : q.1 = fn := by simpa using List.find?_some hf
    rw [dedupStep_snd_some rd fn q h hf]
    unfold rdCount
    rw [find?_map_keyNat rd _ (fun p => by by_cases hp : p.1 = fn <;> simp [hp]) m]
    by_cases hm : m = fn
    · subst hm
      rw [hf]
      simp [hq1]
    · rw [if_neg hm]
      cases hg : rd.find? (fun p => p.1 = m) with
      | none => simp [hg]
      | some q' =>
        have hq'1 : q'.1 = m := by simpa using List.find?_some hg
        simp [hg, hq'1, hm]

theorem dedupGo_char :
    ∀ (ns : List String) (rd : List (String × Nat)) (pref : List String),
      (∀ n, n ≠ "" → rdCount rd n = pref.count n) →
      ∀ (i : Nat) (a : String), ns.get? i = some a → a ≠ "" →
        (dedupNamesGo rd ns).get? i =
          some (if (pref ++ ns.take i).count a = 0 then a
                else a ++ "_" ++ toString ((pref ++ ns.take i).count a + 1)) := by
  intro ns
  induction ns with
  | nil => intro rd pref _ i a ha; simp at ha
  | cons n ns ih =>
    intro rd pref hinv i a ha hne
    cases i with
    | zero =>
      simp only [List.get?_cons_zero, Option.some.injEq] at ha
      subst ha
      simp only [dedupNamesGo, List.get?_cons_zero, List.take_zero, List.append_nil]
      rw [dedupStep_fst rd n hne, hinv n hne]
    | succ j =>
      simp only [List.get?_cons_succ] at ha
      simp only [dedupNamesGo, List.get?_cons_succ]
      have hinv' : ∀ m, m ≠ "" → rdCount (dedupStep rd n).2 m = (pref ++ [n]).count m := by
        intro m hm
        by_cases hn : n = ""
        · subst hn
          have hstep : (dedupStep rd "").2 = rd := by unfold dedupStep; simp
          rw [hstep, hinv m hm]
          simp [List.count_append, hm, Ne.symm hm]
        · rw [dedupStep_rdCount rd n hn m]
          by_cases hmn : m = n
          · subst hmn
            rw [if_pos rfl, hinv m hm]
            simp [List.count_append]
          · rw [if_neg hmn, hinv m hm]
            simp [List.count_append, hmn]
      have := ih (dedupStep rd n).2 (pref ++ [n]) hinv' j a ha hne
      rw [this]
      simp [List.take_succ_cons, List.count_append, List.append_assoc]

/-- C5.  Within one tag: (1) with camel-casing off, the emitted descriptor
function names are exactly the `dedupStep` fold over the synthesized names
(`getFuncationName` per operation, in encounter order); (2) the `i`-th
synthesized name keeps its form when it has no earlier occurrence and
receives the suffix `_(k+1)` when it has `k ≥ 1` earlier occurrences —
i.e. `_2`, `_3`, … in encounter order; (3) two operations both producing
`listUsers` yield `listUsers` and `listUsers_2`. -/
theorem C5_collision_suffixes :
    (∀ (g : ServiceGen) (tag : String) (apis : List APIDataType)
       (rd : List (String × Nat)), g.config.isCamelCase = false →
       (genDescriptors g tag apis rd).map APITPItem.functionName =
         dedupNamesGo rd (apis.map (getFuncationName g)))
    ∧ (∀ (names : List String) (i : Nat) (a : String),
       names.get? i = some a → a ≠ "" →
       (dedupNames names).get? i =
         some (if (names.take i).count a = 0 then a
               else a ++ "_" ++ toString ((names.take i).count a + 1)))
    ∧ dedupNames ["listUsers", "listUsers"] = ["listUsers", "listUsers_2"] := by
  refine ⟨?_, ?_, rfl⟩
  · intro g tag apis rd hcc
    induction apis generalizing rd with
    | nil => rfl
    | cons api rest ih =>
      simp only [genDescriptors, List.map_cons, dedupNamesGo]
      have h1 : (genDescriptor g tag api rd).1.functionName =
          (dedupStep rd (getFuncationName g api)).1 := by
        simp [genDescriptor, hcc]
      have h2 : (genDescriptor g tag api rd).2 =
          (dedupStep rd (getFuncationName g api)).2 := by
        simp [genDescriptor]
      rw [h1, h2, ih]
  · intro names i a ha hne
    have := dedupGo_char names [] [] (by intro n _; rfl) i a ha hne
    simpa using this

/-- Witness for the collision characterization at the claim's example. -/
theorem C5_witness :
    (dedupNames ["listUsers", "listUsers"]).get? 1 =
      some (if ((["listUsers", "listUsers"].take 1).count "listUsers") = 0 then "listUsers"
            else "listUsers" ++ "_"
              ++ toString (((["listUsers", "listUsers"].take 1).count "listUsers") + 1)) :=
  C5_collision_suffixes.2.1 ["listUsers", "listUsers"] 1 "listUsers" rfl (by decide)

end Api2Ts

namespace Api2Ts

/-! ## C10 — base-prefix removal in default function names -/

/-- Spec-worded: the longest common prefix of two segment lists. -/
def longestCommonPre : List String → List String → List String
  | a :: as, b :: bs => if a = b then a :: longestCommonPre as bs else []
  | _, _ => []

/-- Spec-worded: the longest segment-wise prefix common to all paths
(the claim's description of the removed prefix). -/
def commonSegPre (paths : List String) : List String :=
  match paths.map (fun p => jsSplit p "/") with
  | [] => []
  | l :: ls => ls.foldl longestCommonPre l

/-- Spec-worded: the claim's default function name — method followed by the
title-cased segments of the path after removing the longest segment-wise
common prefix. -/
def claimedDefaultName (method p : String) (allPaths : List String) : String :=
  method ++
    String.join (((jsSplit p "/").drop (commonSegPre allPaths).length).map titleSegment)

/-- A document with paths `/api` and `/api/users`, both carrying a bare
`get` operation. -/
def c10doc : OpenAPIObject :=
  { info := { version := "" },
    paths := some
      [("/api",
        { get := some c1op, put := none, post := none, delete := none, patch := none,
          parameters := none }),
       ("/api/users",
        { get := some c1op, put := none, post := none, delete := none, patch := none,
          parameters := none })],
    components := none }

/-- C10, counterexample.  All paths share the leading segment `api`, and the
claim's prefix removal would give the name `get` for the operation at
`/api`; the code computes the base prefix `/api/users/` (positions past a
path's end do not stop the column scan) whose removal is a no-op on `/api`,
so the function name is `getApi` — the shared segment appears in it,
contradicting both the claimed formula and the claimed consequence. -/
theorem C10_counterexample :
    getFuncationName (mkServiceGenerator plainConfig c10doc)
        { path := "/api", method := "get", op := c1op } = "getApi"
    ∧ getBasePrefixOf ["/api", "/api/users"] = "/api/users/"
    ∧ claimedDefaultName "get" "/api" ["/api", "/api/users"] = "get"
    ∧ jsIncludes "getApi" "Api" = true :=
  ⟨rfl, rfl, rfl, rfl⟩

/-- Character-level mirror of `jsJoin`. -/
def listJoinSep (sep : List Char) : List (List Char) → List Char
  | [] => []
  | [x] => x
  | x :: y :: rest => x ++ sep ++ listJoinSep sep (y :: rest)

theorem breakOnSub_eq (sep : List Char) :
    ∀ (s pre post : List Char), breakOnSub sep s = some (pre, post) →
      s = pre ++ sep ++ post := by
  intro s
  induction s with
  | nil => intro pre post h; simp [breakOnSub] at h
  | cons c cs ih =>
    intro pre post h
    rw [breakOnSub] at h
    by_cases hp : sep.isPrefixOf (c :: cs)
    · rw [if_pos hp] at h
      simp only [Option.some.injEq, Prod.mk.injEq] at h
      obtain ⟨h1, h2⟩ := h
      subst h1
      subst h2
      obtain ⟨t, ht⟩ := List.isPrefixOf_iff_prefix.mp hp
      simp only [List.nil_append]
      conv_lhs => rw [← ht]
      congr 1
      rw [← ht, List.drop_left]
    · rw [if_neg hp] at h
      cases hb : breakOnSub sep cs with
      | none => rw [hb] at h; simp at h
      | some q =>
        rw [hb] at h
        simp only [Option.some.injEq, Prod.mk.injEq] at h
        obtain ⟨h1, h2⟩ := h
        subst h1
        subst h2
        have := ih q.1 q.2 (by rw [hb])
        simp [this]

theorem breakOnSub_post_lt (sep : List Char) (hsep : sep ≠ []) (s pre post : List Char)
    (h : breakOnSub sep s = some (pre, post)) : post.length < s.length := by
  have heq := breakOnSub_eq sep s pre post h
  have : s.length = pre.length + sep.length + post.length := by
    rw [heq]; simp [List.length_append]; omega
  have hb : 1 ≤ sep.length := by
    cases sep with
    | nil => exact absurd rfl hsep
    | cons _ _ => simp
  omega

theorem listSplit_join (sep : List Char) (hsep : sep ≠ []) :
    ∀ (fuel : Nat) (s : List Char), s.length < fuel →
      listJoinSep sep (listSplitOnGo sep fuel s) = s := by
  intro fuel
  induction fuel with
  | zero => intro s h; omega
  | succ f ih =>
    intro s h
    rw [listSplitOnGo]
    cases hb : breakOnSub sep s with
    | none => rfl
    | some q =>
      have hs := breakOnSub_eq sep s q.1 q.2 (by rw [hb])
      have hlt := breakOnSub_post_lt sep hsep s q.1 q.2 (by rw [hb])
      have hne : listSplitOnGo sep f q.2 ≠ [] := by
        cases f with
        | zero => simp [listSplitOnGo]
        | succ f' =>
          rw [listSplitOnGo]
          cases breakOnSub sep q.2 <;> simp
      obtain ⟨x, rest, hgo⟩ : ∃ x rest, listSplitOnGo sep f q.2 = x :: rest := by
        cases hq : listSplitOnGo sep f q.2 with
        | nil => exact absurd hq hne
        | cons a b => exact ⟨a, b, rfl⟩
      show listJoinSep sep (q.1 :: listSplitOnGo sep f q.2) = s
      rw [hgo]
      have hjoin : listJoinSep sep (x :: rest) = q.2 := by
        rw [← hgo]
        exact ih q.2 (by omega)
      simp only [listJoinSep]
      rw [hjoin]
      exact hs.symm

theorem jsJoin_map_mk (sep : List Char) :
    ∀ (l : List (List Char)),
      jsJoin ⟨sep⟩ (l.map (fun x => (⟨x⟩ : String))) = ⟨listJoinSep sep l⟩ := by
  intro l
  induction l with
  | nil => rfl
  | cons x t ih =>
    cases t with
    | nil => rfl
    | cons y rest =>
      show (⟨x⟩ : String) ++ ⟨sep⟩ ++ jsJoin ⟨sep⟩ ((y :: rest).map (fun z => (⟨z⟩ : String)))
          = (⟨listJoinSep sep (x :: y :: rest)⟩ : String)
      rw [ih]
      show (⟨x⟩ : String) ++ ⟨sep⟩ ++ (⟨listJoinSep sep (y :: rest)⟩ : String)
          = (⟨listJoinSep sep (x :: y :: rest)⟩ : String)
      rfl

theorem jsSplit_join (p sep : String) (hsep : sep ≠ "") :
    jsJoin sep (jsSplit p sep) = p := by
  have hd : sep.data ≠ [] := by
    intro hdn
    exact hsep (by cases sep; simp_all)
  show jsJoin sep ((listSplitOnGo sep.data (p.data.length + 1) p.data).map
    (fun l => (⟨l⟩ : String))) = p
  have : jsJoin (⟨sep.data⟩ : String) ((listSplitOnGo sep.data (p.data.length + 1)
      p.data).map (fun l => (⟨l⟩ : String))) = ⟨listJoinSep sep.data
      (listSplitOnGo sep.data (p.data.length + 1) p.data)⟩ :=
    jsJoin_map_mk sep.data _
  rw [show (⟨sep.data⟩ : String) = sep from rfl] at this
  rw [this, listSplit_join sep.data hd _ _ (Nat.lt_succ_self _)]

theorem range_map_toList (segs : List String) :
    (List.range segs.length).map (fun k => (segs.get? k).toList) =
      segs.map (fun x => [x]) := by
  induction segs with
  | nil => rfl
  | cons a t ih =>
    rw [List.length_cons, List.range_succ_eq_map, List.map_cons, List.map_map]
    congr 1

theorem takeWhile_singletons (segs : List String) :
    (segs.map (fun x => [x])).takeWhile (fun item => item.length = 1) =
      segs.map (fun x => [x]) := by
  induction segs with
  | nil => rfl
  | cons a t ih => simp [List.takeWhile_cons, ih]

/-- For a single-path document the computed base prefix is the whole path
followed by `/`. -/
theorem getBasePrefixOf_single (p : String) : getBasePrefixOf [p] = p ++ "/" := by
  unfold getBasePrefixOf
  simp only [List.map_cons, List.map_nil, List.foldl_cons, List.foldl_nil,
    List.length_cons, List.length_nil]
  have hflt : ∀ k, [jsSplit p "/"].filterMap (fun segs => segs.get? k) =
      ((jsSplit p "/").get? k).toList := by
    intro k
    simp only [List.filterMap_cons, List.filterMap_nil]
    cases h : (jsSplit p "/").get? k <;> simp [h]
  have hmax : Nat.max 0 (jsSplit p "/").length = (jsSplit p "/").length :=
    Nat.zero_max _
  simp only [hflt, hmax]
  rw [range_map_toList]
  have hdedup : (List.map dedupKeepFirst ((jsSplit p "/").map (fun x => [x]))) =
      (jsSplit p "/").map (fun x => [x]) := by
    rw [List.map_map]
    congr 1
  rw [hdedup, takeWhile_singletons]
  have hjoin1 : ((jsSplit p "/").map (fun x => [x])).map (fun item => jsJoin "," item) =
      jsSplit p "/" := by
    rw [List.map_map]
    have hcid : ((fun item => jsJoin "," item) ∘ (fun x : String => [x])) =
        (fun x : String => x) := by
      funext x
      rfl
    rw [hcid]
    exact List.map_id _
  rw [hjoin1, jsSplit_join p "/" (by decide)]

theorem listReplaceFirst_longer (pat repl : List Char) :
    ∀ (s : List Char), s.length < pat.length → listReplaceFirst pat repl s = s := by
  intro s
  induction s with
  | nil =>
    intro h
    have : ¬pat.isEmpty := by
      cases pat with
      | nil => simp at h
      | cons _ _ => simp
    simp [listReplaceFirst, this]
  | cons c cs ih =>
    intro h
    rw [listReplaceFirst]
    have hp : ¬pat.isPrefixOf (c :: cs) := by
      intro hpre
      have hle := (List.isPrefixOf_iff_prefix.mp hpre).length_le
      simp only [List.length_cons] at hle h
      omega
    rw [if_neg hp, ih (Nat.lt_of_succ_lt h)]

/-- C10, amended.  When the document has exactly one path, the computed base
prefix is the path itself followed by `/`, whose first-occurrence removal
from the path is a no-op (the pattern is longer than the path) — so for an
operation with no `customFunctionName` hook and a falsy operation id the
default function name is the method followed by the title-cased resolved
segments of the **full** path, shared leading segments included; in general
the removed string is `getBasePrefixOf` of all path keys (per-position
column agreement with trailing `/`), not the claim's longest common
segment-wise prefix, and a shared leading segment survives whenever the
computed prefix does not literally occur in the path. -/
theorem C10_amended_singlePath (g : ServiceGen) (p : String) (it : PathItem)
    (d : APIDataType)
    (h1 : g.config.hook.bind Hook.customFunctionName = none)
    (h2 : g.openAPIData.paths = some [(p, it)])
    (h3 : d.op.operationId = none ∨ d.op.operationId = some "")
    (h4 : d.path = p) :
    getFuncationName g d = d.method ++ String.join ((jsSplit p "/").map titleSegment) := by
  have hdefault : getFuncationName g d =
      d.method ++ genDefaultFunctionName d.path
        (getBasePrefixOf ((g.openAPIData.paths.getD []).map Prod.fst)) := by
    unfold getFuncationName
    rw [h1]
    rcases h3 with h3 | h3 <;> simp [h3]
  rw [hdefault, h2, h4]
  simp only [Option.getD_some, List.map_cons, List.map_nil]
  rw [getBasePrefixOf_single]
  unfold genDefaultFunctionName
  have hnoop : jsReplaceFirst (p ++ "/") "" p = p := by
    unfold jsReplaceFirst
    have : ((p ++ "/").data) = p.data ++ ['/'] := by
      simp [String.data_append]
    rw [this, listReplaceFirst_longer _ _ _ (by simp)]
  rw [hnoop]

/-- Witness for the amended C10 at the single-path document `/api/users`. -/
theorem C10_amended_witness :
    getFuncationName (mkServiceGenerator plainConfig (singleGetDoc "/api/users" c1op))
        { path := "/api/users", method := "get", op := c1op } =
      "get" ++ String.join ((jsSplit "/api/users" "/").map titleSegment) :=
  C10_amended_singlePath (mkServiceGenerator plainConfig (singleGetDoc "/api/users" c1op))
    "/api/users"
    { get := some c1op, put := none, post := none, delete := none, patch := none,
      parameters := none }
    { path := "/api/users", method := "get", op := c1op }
    rfl rfl (Or.inl rfl) rfl

end Api2Ts
